import Mathlib

/-!
Verification development for the Markdansi live renderer
(`src/live.ts`, `createLiveRenderer`).

JavaScript strings are modelled as lists of Unicode code points
(`List Char`); the engine is embedded as pure state-passing functions.
The injected `renderFrame` callback and the display-width function of the
external `string-width` package are parameters of the configuration.
-/

namespace Markdansi

/-- A JavaScript string, modelled as its list of code points. -/
abbrev Str := List Char

/-- The ESC character, `\u001b`. -/
def escChar : Char := Char.ofNat 27

/-- The BEL character, `\u0007`. -/
def belChar : Char := Char.ofNat 7

/-- Constant `BSU` from live.ts: begin synchronized update. -/
def BSU : Str := escChar :: "[?2026h".data

/-- Constant `ESU` from live.ts: end synchronized update. -/
def ESU : Str := escChar :: "[?2026l".data

/-- Constant `HIDE_CURSOR` from live.ts. -/
def HIDE_CURSOR : Str := escChar :: "[?25l".data

/-- Constant `SHOW_CURSOR` from live.ts. -/
def SHOW_CURSOR : Str := escChar :: "[?25h".data

/-- Constant `CLEAR_TO_END` from live.ts, clear from cursor to end of screen. -/
def CLEAR_TO_END : Str := escChar :: "[0J".data

/-- The scrollback-clearing sequence emitted on overflow,
`"\u001b[3J\u001b[2J\u001b[H"` in live.ts. -/
def SCROLLBACK_CLEAR : Str :=
  escChar :: "[3J".data ++ escChar :: "[2J".data ++ escChar :: "[H".data

/-- Decimal digits of a natural number, as interpolation of `n` into a
template string does in JavaScript. -/
def natStr (n : Nat) : Str := Nat.toDigits 10 n

/-- Function `cursorUp` from live.ts: the cursor-up-by-n sequence, empty
for a non-positive count. -/
def cursorUp (lines : Int) : Str :=
  if lines ≤ 0 then [] else escChar :: '[' :: (natStr lines.toNat ++ ['A'])

/-- Scanning loop of `extractAnsiToken` for the CSI family (ESC `[`):
consume until a final byte in the range `@`..`~` (inclusive), which is kept.
Returns the consumed characters and the remainder. -/
def csiScan : Str → Str × Str
  | [] => ([], [])
  | c :: rest =>
    if '@' ≤ c ∧ c ≤ '~' then ([c], rest)
    else
      let p := csiScan rest
      (c :: p.1, p.2)

/-- Scanning loop of `extractAnsiToken` for the OSC family (ESC `]`):
consume until BEL or ESC `\`, which are kept. -/
def oscScan : Str → Str × Str
  | [] => ([], [])
  | c :: rest =>
    if c = belChar then ([c], rest)
    else if c = escChar ∧ rest.head? = some '\\' then ([c, '\\'], rest.tail)
    else
      let p := oscScan rest
      (c :: p.1, p.2)

/-- Function `extractAnsiToken` from live.ts, recast to act on the suffix
of the input starting at the scan position: if the suffix starts with ESC,
return the escape token together with the remaining suffix. -/
def extractAnsiToken : Str → Option (Str × Str)
  | [] => none
  | c :: rest =>
    if c = escChar then
      match rest with
      | [] => some ([c], [])
      | d :: rest2 =>
        if d = '[' then
          let p := csiScan rest2
          some (c :: d :: p.1, p.2)
        else if d = ']' then
          let p := oscScan rest2
          some (c :: d :: p.1, p.2)
        else some ([c, d], rest2)
    else none

/-- A token of a styled string: either an escape-sequence run or a single
visible code point, as classified by `extractAnsiToken`. -/
inductive Tok where
  | ansi (t : Str)
  | chr (c : Char)
deriving DecidableEq

/-- Fuelled tokenization loop: at each position either an escape token is
extracted (as in live.ts loops that call `extractAnsiToken`) or a single
code point is consumed.  The fuel only needs to be at least the input
length; it makes the definition structurally recursive so that concrete
runs reduce inside the kernel. -/
def tokenizeGo : Nat → Str → List Tok
  | 0, _ => []
  | fuel + 1, l =>
    match extractAnsiToken l with
    | some p => .ansi p.1 :: tokenizeGo fuel p.2
    | none =>
      match l with
      | [] => []
      | c :: rest => .chr c :: tokenizeGo fuel rest

/-- Tokenize a styled string, classifying each position as escape token or
visible code point exactly as the scanning loops of live.ts do. -/
def tokenize (l : Str) : List Tok := tokenizeGo l.length l

/-- Function `updateSgrState` from live.ts: track the active SGR style.
A non-SGR sequence leaves the state unchanged; an SGR sequence with an
empty parameter list clears it; one whose parameters contain the reset
code `0` replaces the state with the sequence itself when other codes are
present and clears it otherwise; any other SGR sequence is appended. -/
def updateSgrState (current sgrSeq : Str) : Str :=
  if [escChar, '['].isPrefixOf sgrSeq ∧ sgrSeq.getLast? = some 'm' then
    let body := (sgrSeq.drop 2).dropLast
    if body.isEmpty then []
    else
      let codes := body.splitOn ';'
      if codes.contains ['0'] then
        if codes.any (fun code => code != ['0']) then sgrSeq else []
      else current ++ sgrSeq
  else current

/-- The engine configuration captured by `createLiveRenderer` after its
option normalization.  `maxRows = 0` and `tailRows = 0` encode the
disabled state (JavaScript `null`, which is falsy exactly like `0` at
every use site in live.ts).  `charWidth` is the display width of a single
code point as computed by the external string-width package, and
`renderFrame` the injected frame renderer. -/
structure Config where
  renderFrame : Str → Str
  synchronizedOutput : Bool
  hideCursor : Bool
  width : Int
  maxRows : Nat
  tailRows : Nat
  clearOnOverflow : Bool
  clearScrollbackOnOverflow : Bool
  appendWhenPossible : Bool
  charWidth : Char → Nat

/-- The caller-supplied options of `createLiveRenderer` (`none` encodes an
omitted option).  Numeric options are modelled as rationals: every finite
JavaScript double is a rational, and the comparison with zero and
`Math.floor` performed on them by the option normalization are exact on
doubles; the non-finite values (NaN and the infinities) fail the
`Number.isFinite` test and take the same fallback as an omitted option,
so they are subsumed by `none`. -/
structure LiveOptions where
  width : Option Rat := none
  maxRows : Option Rat := none
  tailRows : Option Rat := none
  synchronizedOutput : Option Bool := none
  hideCursor : Option Bool := none
  appendWhenPossible : Option Bool := none
  clearOnOverflow : Option Bool := none
  clearScrollbackOnOverflow : Option Bool := none

/-- Normalization of one numeric option in `createLiveRenderer`
(live.ts lines 85-102): `Math.floor` of a positive finite number, the
given fallback otherwise (80 for the width, disabled for the row limits).
Note that `Math.floor` of a positive number below one is zero, which the
falsy checks of live.ts then treat exactly like a disabled row limit or a
non-positive width. -/
def normPos (o : Option Rat) (dflt : Int) : Int :=
  match o with
  | some v => if v > 0 then v.floor else dflt
  | none => dflt

/-- Option normalization of `createLiveRenderer` (live.ts lines 83-108):
`synchronizedOutput`/`hideCursor`/`clearOnOverflow` default to true,
`clearScrollbackOnOverflow` to false; non-positive width falls back to 80;
non-positive `maxRows`/`tailRows` are disabled; `appendWhenPossible` is
forced off when tail mode is configured. -/
def normOptions (o : LiveOptions) (charWidth : Char → Nat)
    (renderFrame : Str → Str) : Config :=
  let tailRows := (normPos o.tailRows 0).toNat
  { renderFrame := renderFrame
    synchronizedOutput := o.synchronizedOutput.getD true
    hideCursor := o.hideCursor.getD true
    width := normPos o.width 80
    maxRows := (normPos o.maxRows 0).toNat
    tailRows := tailRows
    clearOnOverflow := o.clearOnOverflow.getD true
    clearScrollbackOnOverflow := o.clearScrollbackOnOverflow.getD false
    appendWhenPossible := o.appendWhenPossible.getD false && tailRows == 0
    charWidth := charWidth }

/-- Loop body of `splitLineToRows` from live.ts, running over the token
stream of the line (the tokens are exactly what the loop's calls to
`extractAnsiToken` produce, so processing them in order is the loop).
State: accumulated row `current`, its width, the active SGR style, and
the rows produced so far.  A visible code point that would exceed the
width budget on a non-empty row flushes the row and starts a new one
seeded with the active style. -/
def splitTokens (cfg : Config) : List Tok → Str → Nat → Str → List Str →
    List Str × Str
  | [], current, _, activeSgr, rows => (rows ++ [current], activeSgr)
  | .ansi t :: ts, current, cw, activeSgr, rows =>
    splitTokens cfg ts (current ++ t) cw (updateSgrState activeSgr t) rows
  | .chr c :: ts, current, cw, activeSgr, rows =>
    let w := cfg.charWidth c
    if ((cw + w : Nat) : Int) > cfg.width ∧ cw > 0 then
      splitTokens cfg ts (activeSgr ++ [c]) w activeSgr (rows ++ [current])
    else
      splitTokens cfg ts (current ++ [c]) (cw + w) activeSgr rows

/-- Function `splitLineToRows` from live.ts: split one logical line into
physical rows, carrying the active SGR style across wrap points.  With a
non-positive width no splitting occurs. -/
def splitLineToRows (cfg : Config) (line : Str) (activeSgr : Str) :
    List Str × Str :=
  if cfg.width ≤ 0 then ([activeSgr ++ line], activeSgr)
  else splitTokens cfg (tokenize line) activeSgr 0 activeSgr []

/-- Function `splitToRows` from live.ts: split on logical newlines (a
trailing empty line from a final newline is dropped), split every line
into physical rows threading the active SGR style, and produce one empty
row for empty input. -/
def splitToRows (cfg : Config) (text : Str) : List Str :=
  let lines := text.splitOn '\n'
  let lines := if lines.getLast? = some [] then lines.dropLast else lines
  let p := lines.foldl
    (fun acc line =>
      let r := splitLineToRows cfg line acc.2
      (acc.1 ++ r.1, r.2))
    (([], []) : List Str × Str)
  if p.1.isEmpty then [[]] else p.1

/-- Function `visibleWidth` from live.ts: total display width of the
visible code points, escape tokens contributing zero. -/
def visibleWidth (cfg : Config) (line : Str) : Nat :=
  (tokenize line).foldl
    (fun acc t =>
      match t with
      | .ansi _ => acc
      | .chr c => acc + cfg.charWidth c)
    0

/-- Function `lineRowCount` from live.ts: number of physical rows a
logical line occupies, at least one, the ceiling of its visible width
divided by the column width (one row when width is non-positive). -/
def lineRowCount (cfg : Config) (line : Str) : Nat :=
  if cfg.width ≤ 0 then 1
  else max 1 (((Int.ofNat (visibleWidth cfg line) + cfg.width - 1) / cfg.width).toNat)

/-- Function `measureLines` from live.ts. -/
def measureLines (cfg : Config) (lines : List Str) : List Nat :=
  lines.map (lineRowCount cfg)

/-- Function `sumRows` from live.ts: sum of the heights strictly before
`endExclusive` (all of them when the bound is omitted). -/
def sumRows (heights : List Nat) (endExclusive : Option Nat) : Nat :=
  match endExclusive with
  | some e => (heights.take e).sum
  | none => heights.sum

/-- The mutable engine state captured by the `createLiveRenderer` closure. -/
structure EngineState where
  previousLines : List Str
  previousLineHeights : List Nat
  cursorRow : Nat
  cursorHidden : Bool
  overflowed : Bool
  overflowNotified : Bool
  previousRenderedRaw : Str
deriving DecidableEq

/-- The initial engine state at construction. -/
def initState : EngineState :=
  { previousLines := []
    previousLineHeights := []
    cursorRow := 0
    cursorHidden := false
    overflowed := false
    overflowNotified := false
    previousRenderedRaw := [] }

/-- An observable effect of a `render`/`finish` call: a chunk passed to
the injected write sink, or an invocation of the `onOverflow` callback. -/
inductive Event where
  | write (chunk : Str)
  | overflow (rows : Nat) (maxRows : Nat)
deriving DecidableEq

/-- Normalization of the rendered text at the top of `render`/`finish`:
a trailing newline is appended when missing. -/
def toRenderedText (cfg : Config) (input : Str) : Str :=
  let renderedRaw := cfg.renderFrame input
  if renderedRaw.getLast? = some '\n' then renderedRaw
  else renderedRaw ++ ['\n']

/-- The `rawLines` computed by `render`/`finish`: split the rendered text
on newlines, drop a trailing empty line, and fall back to one empty line. -/
def toRawLines (rendered : Str) : List Str :=
  let ls := rendered.splitOn '\n'
  let ls := if ls.getLast? = some [] then ls.dropLast else ls
  if ls.isEmpty then [[]] else ls

/-- The `rawHeights` of a rendered text (`measureLines(rawLines)`). -/
def rawHeightsOf (cfg : Config) (rendered : Str) : List Nat :=
  measureLines cfg (toRawLines rendered)

/-- The `totalRows` of a rendered text (`sumRows(rawHeights)`). -/
def totalRowsOf (cfg : Config) (rendered : Str) : Nat :=
  sumRows (rawHeightsOf cfg rendered) none

/-- The `renderLines` of a rendered text: pre-wrapped physical rows in
tail mode, the raw logical lines otherwise. -/
def renderLinesOf (cfg : Config) (rendered : Str) : List Str :=
  if cfg.tailRows ≠ 0 then splitToRows cfg rendered else toRawLines rendered

/-- The `nextLines` of a rendered text: in tail mode only the last
`tailRows` physical rows are kept. -/
def nextLinesOf (cfg : Config) (rendered : Str) : List Str :=
  let rl := renderLinesOf cfg rendered
  if cfg.tailRows ≠ 0 ∧ rl.length > cfg.tailRows then
    rl.drop (rl.length - cfg.tailRows)
  else rl

/-- The `nextHeights` of a rendered text: unit heights in tail mode, the
per-line physical heights otherwise. -/
def nextHeightsOf (cfg : Config) (rendered : Str) : List Nat :=
  if cfg.tailRows ≠ 0 then (nextLinesOf cfg rendered).map (fun _ => 1)
  else rawHeightsOf cfg rendered

/-- The `nextRows` of a rendered text: the drawn row count. -/
def nextRowsOf (cfg : Config) (rendered : Str) : Nat :=
  if cfg.tailRows ≠ 0 then (nextLinesOf cfg rendered).length
  else totalRowsOf cfg rendered

/-- The `overflowRows` of a rendered text: the row count checked against
`maxRows` (the windowed count in tail mode, the full height otherwise). -/
def overflowRowsOf (cfg : Config) (rendered : Str) : Nat :=
  if cfg.tailRows ≠ 0 then nextRowsOf cfg rendered
  else totalRowsOf cfg rendered

/-- The guard of the append fast path in `render` (live.ts line 266):
append optimization enabled, a previously rendered text exists, and the
new rendered text extends it byte-for-byte. -/
def appendCond (cfg : Config) (st : EngineState) (rendered : Str) : Bool :=
  cfg.appendWhenPossible && !st.previousRenderedRaw.isEmpty &&
    st.previousRenderedRaw.isPrefixOf rendered

/-- The overflow trigger of `render` (live.ts line 300): a row budget is
configured, the checked row count exceeds it, and the engine has not
overflowed yet. -/
def overTrig (cfg : Config) (st : EngineState) (rendered : Str) : Bool :=
  decide (cfg.maxRows ≠ 0 ∧ overflowRowsOf cfg rendered > cfg.maxRows) &&
    !st.overflowed

/-- The clear strategy chosen on the overflow transition. -/
inductive ClearMode where
  | scrollback
  | screen
deriving DecidableEq

/-- Clear-mode selection on overflow (live.ts lines 306-310). -/
def clearModeOf (cfg : Config) : Option ClearMode :=
  if cfg.clearScrollbackOnOverflow then some .scrollback
  else if cfg.clearOnOverflow then some .screen
  else none

/-- The recurring cursor-hiding snippet of live.ts
(`if (hideCursor && !cursorHidden) ...`): the emitted sequence and the new
hidden flag. -/
def hideCursorStep (cfg : Config) (hidden : Bool) : Str × Bool :=
  if cfg.hideCursor ∧ !hidden then (HIDE_CURSOR, true) else ([], hidden)

/-- Newline normalization of the append fast path:
`appended.replace(/\r?\n/g, "\r\n")`. -/
def crlfNormalize : Str → Str
  | [] => []
  | '\r' :: '\n' :: rest => '\r' :: '\n' :: crlfNormalize rest
  | '\n' :: rest => '\r' :: '\n' :: crlfNormalize rest
  | c :: rest => c :: crlfNormalize rest

/-- The content block of a redraw: every row preceded by a carriage
return and terminated by CRLF (the emission loops of live.ts). -/
def rowsSegment (rows : List Str) : Str :=
  rows.foldl (fun acc r => acc ++ '\r' :: (r ++ ['\r', '\n'])) []

/-- The result of one `render` call: `state` is the engine state after
the call and `events` the emitted effects in order.  `midState` is the
engine state at the instant `options.write` is invoked (every mutation
preceding the write applied, none of the later ones), or `none` when the
call performs no write; it records what a throwing write sink would leave
behind. -/
structure RenderOut where
  midState : Option EngineState
  state : EngineState
  events : List Event
deriving DecidableEq

/-- The chunk written by the append fast path: the appended suffix with
newlines translated to CRLF, wrapped in cursor-hiding and synchronized
output framing. -/
def appendFrame (cfg : Config) (st : EngineState) (rendered : Str) : Str :=
  (hideCursorStep cfg st.cursorHidden).1
    ++ (if cfg.synchronizedOutput then BSU else [])
    ++ crlfNormalize (rendered.drop st.previousRenderedRaw.length)
    ++ (if cfg.synchronizedOutput then ESU else [])

/-- The append fast path of `render` (live.ts lines 266-295). -/
def appendStep (cfg : Config) (st : EngineState) (rendered : Str) : RenderOut :=
  let appended := rendered.drop st.previousRenderedRaw.length
  let hc := hideCursorStep cfg st.cursorHidden
  let stBase : EngineState :=
    { st with
      previousRenderedRaw := rendered
      previousLines :=
        if cfg.tailRows ≠ 0 then nextLinesOf cfg rendered else toRawLines rendered
      previousLineHeights :=
        if cfg.tailRows ≠ 0 then nextHeightsOf cfg rendered
        else rawHeightsOf cfg rendered
      cursorRow :=
        if cfg.tailRows ≠ 0 then nextRowsOf cfg rendered
        else totalRowsOf cfg rendered }
  if appended.isEmpty then ⟨none, stBase, []⟩
  else
    ⟨some { st with cursorHidden := hc.2 },
      { stBase with cursorHidden := hc.2 }, [.write (appendFrame cfg st rendered)]⟩

/-- The chunk written on the non-tail overflow halt. -/
def overflowHaltFrame (cfg : Config) (st0 : EngineState) : Str :=
  (hideCursorStep cfg st0.cursorHidden).1
    ++ (if cfg.synchronizedOutput then BSU else [])
    ++ (match clearModeOf cfg with
        | some .scrollback => SCROLLBACK_CLEAR
        | some .screen =>
          (if st0.cursorRow > 0 then cursorUp st0.cursorRow ++ ['\r'] else ['\r'])
            ++ CLEAR_TO_END
        | none => [])
    ++ (if cfg.synchronizedOutput then ESU else [])

/-- The non-tail overflow halt of `render` (live.ts lines 311-332):
optionally clear, reset the previous-frame bookkeeping, and stop.
`st0` already carries the overflow latches. -/
def overflowHaltStep (cfg : Config) (st0 : EngineState)
    (ovEvents : List Event) : RenderOut :=
  let hc := hideCursorStep cfg st0.cursorHidden
  let frame := overflowHaltFrame cfg st0
  let stFin : EngineState :=
    { st0 with
      cursorHidden := hc.2
      previousLines := []
      previousLineHeights := []
      cursorRow := 0 }
  if frame.isEmpty then ⟨none, stFin, ovEvents⟩
  else ⟨some { st0 with cursorHidden := hc.2 }, stFin, ovEvents ++ [.write frame]⟩

/-- The chunk written by a full redraw. -/
def fullRedrawFrame (cfg : Config) (st0 : EngineState)
    (clearMode : Option ClearMode) (rendered : Str) : Str :=
  (hideCursorStep cfg st0.cursorHidden).1
    ++ (if cfg.synchronizedOutput then BSU else [])
    ++ (match clearMode with
        | some .scrollback => SCROLLBACK_CLEAR
        | _ =>
          (if st0.cursorRow > 0 then cursorUp st0.cursorRow ++ ['\r'] else ['\r'])
            ++ CLEAR_TO_END)
    ++ rowsSegment (nextLinesOf cfg rendered)
    ++ (if cfg.synchronizedOutput then ESU else [])

/-- The full redraw of `render` (live.ts lines 394-417): move to the top
of the previous frame (or clear scrollback), clear to end of screen, and
rewrite every row. -/
def fullRedraw (cfg : Config) (st0 : EngineState) (clearMode : Option ClearMode)
    (ovEvents : List Event) (rendered : Str) : RenderOut :=
  let nextLines := nextLinesOf cfg rendered
  let hc := hideCursorStep cfg st0.cursorHidden
  let frame := fullRedrawFrame cfg st0 clearMode rendered
  ⟨some { st0 with cursorHidden := hc.2 },
    { st0 with
      cursorHidden := hc.2
      cursorRow := nextRowsOf cfg rendered
      previousLines := nextLines
      previousLineHeights := nextHeightsOf cfg rendered
      previousRenderedRaw := rendered },
    ovEvents ++ [.write frame]⟩

/-- The cursor move of a partial redraw: down when the first changed row
is below the cursor anchor, up when above, nothing when equal. -/
def moveSeq (rowDiff : Int) : Str :=
  if rowDiff > 0 then escChar :: '[' :: (natStr rowDiff.toNat ++ ['B'])
  else if rowDiff < 0 then cursorUp (-rowDiff)
  else []

/-- The chunk written by a partial redraw. -/
def partialRedrawFrame (cfg : Config) (st0 : EngineState)
    (firstChanged : Nat) (rendered : Str) : Str :=
  (hideCursorStep cfg st0.cursorHidden).1
    ++ (if cfg.synchronizedOutput then BSU else [])
    ++ moveSeq ((sumRows st0.previousLineHeights (some firstChanged) : Int)
        - (st0.cursorRow : Int))
    ++ ['\r'] ++ CLEAR_TO_END
    ++ rowsSegment ((nextLinesOf cfg rendered).drop firstChanged)
    ++ (if cfg.synchronizedOutput then ESU else [])

/-- The partial redraw of `render` (live.ts lines 360-391): move the
cursor to the first changed row, clear to end of screen, and rewrite from
there. -/
def partialRedraw (cfg : Config) (st0 : EngineState) (ovEvents : List Event)
    (firstChanged : Nat) (rendered : Str) : RenderOut :=
  let nextLines := nextLinesOf cfg rendered
  let frame := partialRedrawFrame cfg st0 firstChanged rendered
  let hc := hideCursorStep cfg st0.cursorHidden
  ⟨some { st0 with cursorHidden := hc.2 },
    { st0 with
      cursorHidden := hc.2
      cursorRow := nextRowsOf cfg rendered
      previousLines := nextLines
      previousLineHeights := nextHeightsOf cfg rendered
      previousRenderedRaw := rendered },
    ovEvents ++ [.write frame]⟩

/-- Tail run of the frame differ once the previous rows are exhausted:
the remaining new rows are compared against the empty string. -/
def firstDiffNil : List Str → Option Nat
  | [] => none
  | b :: bs =>
    if ([] : Str) ≠ b then some 0 else (firstDiffNil bs).map (· + 1)

/-- The frame differ of `render` (live.ts lines 338-350): first index at
which the previous and the new rows differ, a missing row comparing as
the empty string; `none` when no index differs. -/
def firstDiff : List Str → List Str → Option Nat
  | [], next => firstDiffNil next
  | a :: as, [] =>
    if a ≠ ([] : Str) then some 0 else (firstDiff as []).map (· + 1)
  | a :: as, b :: bs =>
    if a ≠ b then some 0 else (firstDiff as bs).map (· + 1)

/-- The overflow-latched state of a `render` call (live.ts lines 300-303):
both latches set when the overflow trigger fires, unchanged otherwise. -/
def latchedState (cfg : Config) (st : EngineState) (rendered : Str) :
    EngineState :=
  if overTrig cfg st rendered then
    { st with overflowed := true, overflowNotified := true }
  else st

/-- The overflow-callback events of a `render` call (live.ts lines 302-304):
one invocation when the trigger fires and the callback has not been
notified before. -/
def latchEvents (cfg : Config) (st : EngineState) (rendered : Str) :
    List Event :=
  if overTrig cfg st rendered && !st.overflowNotified then
    [.overflow (overflowRowsOf cfg rendered) cfg.maxRows]
  else []

/-- The `clearMode` local of `render`: selected only on the overflow
transition. -/
def clearModeSel (cfg : Config) (st : EngineState) (rendered : Str) :
    Option ClearMode :=
  if overTrig cfg st rendered then clearModeOf cfg else none

/-- The body of `render` after the append fast path declined (live.ts
lines 297-417): overflow policy, diff, and partial or full redraw. -/
def mainStep (cfg : Config) (st : EngineState) (rendered : Str) : RenderOut :=
  if overTrig cfg st rendered ∧ cfg.tailRows = 0 then
    overflowHaltStep cfg (latchedState cfg st rendered)
      (latchEvents cfg st rendered)
  else
    let forceFullRender := st.previousLines.isEmpty ||
      (overTrig cfg st rendered && (clearModeSel cfg st rendered).isSome)
    if forceFullRender then
      fullRedraw cfg (latchedState cfg st rendered) (clearModeSel cfg st rendered)
        (latchEvents cfg st rendered) rendered
    else
      match firstDiff st.previousLines (nextLinesOf cfg rendered) with
      | none => ⟨none, latchedState cfg st rendered, latchEvents cfg st rendered⟩
      | some firstChanged =>
        if cfg.maxRows ≠ 0 ∧
            sumRows st.previousLineHeights (some firstChanged) <
              st.cursorRow - cfg.maxRows then
          fullRedraw cfg (latchedState cfg st rendered)
            (clearModeSel cfg st rendered) (latchEvents cfg st rendered) rendered
        else
          partialRedraw cfg (latchedState cfg st rendered)
            (latchEvents cfg st rendered) firstChanged rendered

/-- One `render(input)` call of live.ts, as a pure function of the
engine state. -/
def renderCore (cfg : Config) (st : EngineState) (input : Str) : RenderOut :=
  if st.overflowed ∧ cfg.tailRows = 0 then ⟨none, st, []⟩
  else
    let rendered := toRenderedText cfg input
    if appendCond cfg st rendered then appendStep cfg st rendered
    else mainStep cfg st rendered

/-- The externally observable result of `render`: new state and events. -/
def render (cfg : Config) (st : EngineState) (input : Str) :
    EngineState × List Event :=
  ((renderCore cfg st input).state, (renderCore cfg st input).events)

/-- The chunk written by the final full repaint of `finish`. -/
def finishFrame (cfg : Config) (st : EngineState) (f : Str) : Str :=
  (hideCursorStep cfg st.cursorHidden).1
    ++ (if cfg.synchronizedOutput then BSU else [])
    ++ (if st.cursorRow > 0 then cursorUp st.cursorRow ++ ['\r'] else ['\r'])
    ++ CLEAR_TO_END
    ++ rowsSegment (toRawLines (toRenderedText cfg f))
    ++ (if cfg.synchronizedOutput then ESU else [])

/-- One `finish(final?)` call of live.ts: optional final full repaint
(ignoring tail mode), then cursor restoration. -/
def finish (cfg : Config) (st : EngineState) (final : Option Str) :
    EngineState × List Event :=
  let p1 : EngineState × List Event :=
    match final with
    | none => (st, [])
    | some f =>
      let rendered := toRenderedText cfg f
      let nextLines := toRawLines rendered
      let nextHeights := measureLines cfg nextLines
      let nextRows := sumRows nextHeights none
      let hc := hideCursorStep cfg st.cursorHidden
      let frame := finishFrame cfg st f
      ({ st with
          cursorHidden := hc.2
          cursorRow := nextRows
          previousLines := nextLines
          previousLineHeights := nextHeights
          previousRenderedRaw := rendered },
        [.write frame])
  if cfg.hideCursor ∧ p1.1.cursorHidden then
    ({ p1.1 with cursorHidden := false }, p1.2 ++ [.write SHOW_CURSOR])
  else p1

/-- Concatenation of all chunks passed to the write sink among a list of
events (what the terminal receives). -/
def writtenChunks (evs : List Event) : Str :=
  evs.foldl
    (fun acc e =>
      match e with
      | .write w => acc ++ w
      | .overflow _ _ => acc)
    []

/-- The overflow-callback invocations among a list of events. -/
def overflowEvents (evs : List Event) : List Event :=
  evs.filter
    (fun e =>
      match e with
      | .overflow _ _ => true
      | .write _ => false)

/-- Remove every escape token of a styled string, keeping the visible
code points ("stripping styling" in the specification). -/
def stripAnsi (l : Str) : Str :=
  (tokenize l).foldr
    (fun t acc =>
      match t with
      | .ansi _ => acc
      | .chr c => c :: acc)
    []

/-- Display width of printable ASCII as computed by the string-width
package: 1 for a printable character, 0 for control characters.  Used to
instantiate `Config.charWidth` on the concrete ASCII scenarios. -/
def asciiWidth (c : Char) : Nat :=
  if 32 ≤ c.toNat ∧ c.toNat ≤ 126 then 1 else 0

/-- A concrete engine configuration: injected options, ASCII widths, and
the identity `renderFrame` (as in the repository's live-renderer tests). -/
def mkConfig (o : LiveOptions) : Config :=
  normOptions o asciiWidth (fun s => s)

/-- The escape tokens among a token stream, in order. -/
def ansiToks (ts : List Tok) : List Str :=
  ts.filterMap
    (fun t =>
      match t with
      | .ansi s => some s
      | .chr _ => none)

/-- Fold the SGR state tracker over a sequence of escape tokens. -/
def applySgr (a : Str) (ts : List Str) : Str := ts.foldl updateSgrState a

/-- True when a chunk contains no cursor-movement sequence (no CSI token
ending in the final byte A or B). -/
def cursorMoveFree (s : Str) : Bool :=
  (tokenize s).all
    (fun t =>
      match t with
      | .ansi tk => !(tk.getLast? == some 'A' || tk.getLast? == some 'B')
      | .chr _ => true)

theorem csiScan_snd_length (l : Str) : (csiScan l).2.length ≤ l.length := by
  induction l with
  | nil => simp [csiScan]
  | cons c rest ih =>
    simp only [csiScan]
    split
    · simp
    · simp only [List.length_cons]
      omega

theorem oscScan_snd_length (l : Str) : (oscScan l).2.length ≤ l.length := by
  induction l with
  | nil => simp [oscScan]
  | cons c rest ih =>
    simp only [oscScan]
    split
    · simp
    · split
      · simp only [List.length_cons, List.length_tail]
        omega
      · simp only [List.length_cons]
        omega

theorem extractAnsiToken_snd_length {l : Str} {p : Str × Str}
    (h : extractAnsiToken l = some p) : p.2.length < l.length := by
  match l with
  | [] => simp [extractAnsiToken] at h
  | c :: rest =>
    simp only [extractAnsiToken] at h
    split at h
    · match rest with
      | [] =>
        simp only [Option.some.injEq] at h
        simp [← h]
      | d :: rest2 =>
        simp only at h
        split at h
        · simp only [Option.some.injEq] at h
          have := csiScan_snd_length rest2
          rw [← h]
          simp only [List.length_cons]
          omega
        · split at h
          · simp only [Option.some.injEq] at h
            have := oscScan_snd_length rest2
            rw [← h]
            simp only [List.length_cons]
            omega
          · simp only [Option.some.injEq] at h
            rw [← h]
            simp only [List.length_cons]
            omega
    · simp at h

theorem tokenizeGo_fuel {fuel : Nat} {l : Str} (h : l.length ≤ fuel) :
    tokenizeGo fuel l = tokenize l := by
  unfold tokenize
  induction fuel using Nat.strong_induction_on generalizing l with
  | _ fuel ih =>
    match fuel with
    | 0 =>
      have : l = [] := List.eq_nil_of_length_eq_zero (Nat.le_zero.mp h)
      subst this
      rfl
    | fuel + 1 =>
      match l with
      | [] => rfl
      | c :: rest =>
        have hre : (c :: rest).length = rest.length + 1 := rfl
        rw [hre]
        cases hx : extractAnsiToken (c :: rest) with
        | some p =>
          have hlt := extractAnsiToken_snd_length hx
          simp only [List.length_cons] at hlt h
          simp only [tokenizeGo, hx]
          rw [ih fuel (Nat.lt_succ_self _) (by omega),
            ih rest.length (by omega) (by omega)]
        | none =>
          simp only [List.length_cons] at h
          simp only [tokenizeGo, hx]
          rw [ih fuel (Nat.lt_succ_self _) (by omega)]

/-- Unfolding rule for `tokenize` on an escape token. -/
theorem tokenize_extract {l : Str} {p : Str × Str}
    (h : extractAnsiToken l = some p) :
    tokenize l = .ansi p.1 :: tokenize p.2 := by
  have hlt := extractAnsiToken_snd_length h
  match l with
  | [] => simp [extractAnsiToken] at h
  | c :: rest =>
    show tokenizeGo (rest.length + 1) (c :: rest) = _
    simp only [tokenizeGo, h]
    rw [tokenizeGo_fuel (by simp only [List.length_cons] at hlt; omega)]

/-- Unfolding rule for `tokenize` on a visible code point. -/
theorem tokenize_chr {c : Char} {rest : Str}
    (h : extractAnsiToken (c :: rest) = none) :
    tokenize (c :: rest) = .chr c :: tokenize rest := by
  show tokenizeGo (rest.length + 1) (c :: rest) = _
  simp only [tokenizeGo, h]
  rw [tokenizeGo_fuel (Nat.le_refl _)]

theorem firstDiffNil_some_iff (next : List Str) (i : Nat) :
    firstDiffNil next = some i ↔
      next.getD i [] ≠ [] ∧ ∀ j < i, next.getD j [] = [] := by
  induction next generalizing i with
  | nil =>
    simp [firstDiffNil, List.getD_nil]
  | cons b bs ih =>
    simp only [firstDiffNil]
    split
    · constructor
      · rintro h
        cases h
        refine ⟨by simpa using (by assumption : ([] : Str) ≠ b).symm, ?_⟩
        intro j hj
        omega
      · rintro ⟨h1, h2⟩
        rcases i with _ | i
        · rfl
        · exact absurd (h2 0 (Nat.succ_pos _)) (by simpa using
            (by assumption : ([] : Str) ≠ b).symm)
    · rename_i hb
      have hb' : b = [] := by
        by_contra hne
        exact hb (Ne.symm hne)
      subst hb'
      rcases i with _ | i
      · simp [List.getD_cons_zero]
      · simp only [Option.map_eq_some', List.getD_cons_succ]
        constructor
        · rintro ⟨i', hi', hsum⟩
          have hii : i' = i := by omega
          rw [hii] at hi'
          obtain ⟨h1, h2⟩ := (ih i).mp hi'
          refine ⟨h1, ?_⟩
          intro j hj
          rcases j with _ | j
          · simp [List.getD_cons_zero]
          · simpa [List.getD_cons_succ] using h2 j (by omega)
        · rintro ⟨h1, h2⟩
          refine ⟨i, (ih i).mpr ⟨h1, ?_⟩, rfl⟩
          intro j hj
          simpa [List.getD_cons_succ] using h2 (j + 1) (by omega)

theorem firstDiff_some_iff (prev next : List Str) (i : Nat) :
    firstDiff prev next = some i ↔
      prev.getD i [] ≠ next.getD i [] ∧
        ∀ j < i, prev.getD j [] = next.getD j [] := by
  induction prev generalizing next i with
  | nil =>
    show firstDiffNil next = some i ↔ _
    rw [firstDiffNil_some_iff]
    simp only [List.getD_nil]
    exact ⟨fun h => ⟨Ne.symm h.1, fun j hj => (h.2 j hj).symm⟩,
      fun h => ⟨Ne.symm h.1, fun j hj => (h.2 j hj).symm⟩⟩
  | cons a as ih =>
    match next with
    | [] =>
      simp only [firstDiff]
      split
      · constructor
        · rintro h
          cases h
          exact ⟨by simpa [List.getD_nil, List.getD_cons_zero] using
              (by assumption : a ≠ ([] : Str)), fun j hj => by omega⟩
        · rintro ⟨h1, h2⟩
          rcases i with _ | i
          · rfl
          · exact absurd (h2 0 (Nat.succ_pos _)) (by
              simpa [List.getD_nil, List.getD_cons_zero] using
                (by assumption : a ≠ ([] : Str)))
      · rename_i ha
        have ha' : a = [] := by
          by_contra hne
          exact ha hne
        subst ha'
        rcases i with _ | i
        · simp [List.getD_cons_zero, List.getD_nil]
        · simp only [Option.map_eq_some', List.getD_cons_succ, List.getD_nil]
          constructor
          · rintro ⟨i', hi', hsum⟩
            have hii : i' = i := by omega
            rw [hii] at hi'
            obtain ⟨h1, h2⟩ := (ih [] i).mp hi'
            simp only [List.getD_nil] at h1 h2
            refine ⟨h1, ?_⟩
            intro j hj
            rcases j with _ | j
            · simp [List.getD_cons_zero, List.getD_nil]
            · simpa [List.getD_cons_succ, List.getD_nil] using h2 j (by omega)
          · rintro ⟨h1, h2⟩
            refine ⟨i, (ih [] i).mpr ⟨by simpa [List.getD_nil] using h1, ?_⟩, rfl⟩
            intro j hj
            simpa [List.getD_cons_succ, List.getD_nil] using h2 (j + 1) (by omega)
    | b :: bs =>
      simp only [firstDiff]
      split
      · constructor
        · rintro h
          cases h
          exact ⟨by simpa [List.getD_cons_zero] using (by assumption : a ≠ b),
            fun j hj => by omega⟩
        · rintro ⟨h1, h2⟩
          rcases i with _ | i
          · rfl
          · exact absurd (h2 0 (Nat.succ_pos _)) (by
              simpa [List.getD_cons_zero] using (by assumption : a ≠ b))
      · rename_i hab
        have hab' : a = b := by
          by_contra hne
          exact hab hne
        subst hab'
        rcases i with _ | i
        · simp [List.getD_cons_zero]
        · simp only [Option.map_eq_some', List.getD_cons_succ]
          constructor
          · rintro ⟨i', hi', hsum⟩
            have hii : i' = i := by omega
            rw [hii] at hi'
            obtain ⟨h1, h2⟩ := (ih bs i).mp hi'
            refine ⟨h1, ?_⟩
            intro j hj
            rcases j with _ | j
            · simp [List.getD_cons_zero]
            · simpa [List.getD_cons_succ] using h2 j (by omega)
          · rintro ⟨h1, h2⟩
            refine ⟨i, (ih bs i).mpr ⟨h1, ?_⟩, rfl⟩
            intro j hj
            simpa [List.getD_cons_succ] using h2 (j + 1) (by omega)

theorem firstDiffNil_none_iff (next : List Str) :
    firstDiffNil next = none ↔ ∀ i, next.getD i [] = [] := by
  induction next with
  | nil => simp [firstDiffNil, List.getD_nil]
  | cons b bs ih =>
    simp only [firstDiffNil]
    split
    · rename_i hb
      constructor
      · intro h
        cases h
      · intro h
        exact absurd (h 0) (by simpa [List.getD_cons_zero] using hb.symm)
    · rename_i hb
      have hb' : b = [] := by
        by_contra hne
        exact hb (Ne.symm hne)
      subst hb'
      simp only [Option.map_eq_none', ih]
      constructor
      · intro h i
        rcases i with _ | i
        · simp [List.getD_cons_zero]
        · simpa [List.getD_cons_succ] using h i
      · intro h i
        simpa [List.getD_cons_succ] using h (i + 1)

theorem firstDiff_none_iff (prev next : List Str) :
    firstDiff prev next = none ↔ ∀ i, prev.getD i [] = next.getD i [] := by
  induction prev generalizing next with
  | nil =>
    show firstDiffNil next = none ↔ _
    rw [firstDiffNil_none_iff]
    simp only [List.getD_nil]
    exact ⟨fun h i => (h i).symm, fun h i => (h i).symm⟩
  | cons a as ih =>
    match next with
    | [] =>
      simp only [firstDiff]
      split
      · rename_i ha
        constructor
        · intro h
          cases h
        · intro h
          exact absurd (h 0) (by simpa [List.getD_cons_zero, List.getD_nil] using ha)
      · rename_i ha
        have ha' : a = [] := by
          by_contra hne
          exact ha hne
        subst ha'
        simp only [Option.map_eq_none', ih []]
        constructor
        · intro h i
          rcases i with _ | i
          · simp [List.getD_cons_zero, List.getD_nil]
          · simpa [List.getD_cons_succ, List.getD_nil] using h i
        · intro h i
          simpa [List.getD_cons_succ, List.getD_nil] using h (i + 1)
    | b :: bs =>
      simp only [firstDiff]
      split
      · rename_i hab
        constructor
        · intro h
          cases h
        · intro h
          exact absurd (h 0) (by simpa [List.getD_cons_zero] using hab)
      · rename_i hab
        have hab' : a = b := by
          by_contra hne
          exact hab hne
        subst hab'
        simp only [Option.map_eq_none', ih bs]
        constructor
        · intro h i
          rcases i with _ | i
          · simp [List.getD_cons_zero]
          · simpa [List.getD_cons_succ] using h i
        · intro h i
          simpa [List.getD_cons_succ] using h (i + 1)

theorem firstDiff_self (l : List Str) : firstDiff l l = none :=
  (firstDiff_none_iff l l).mpr (fun _ => rfl)

theorem toRenderedText_ne_nil (cfg : Config) (x : Str) :
    toRenderedText cfg x ≠ [] := by
  by_cases h : (cfg.renderFrame x).getLast? = some '\n'
  · intro hnil
    simp only [toRenderedText, h, if_pos] at hnil
    rw [hnil] at h
    simp at h
  · simp [toRenderedText, h]

theorem ite_isEmpty_ne_nil (X : List Str) :
    (if X.isEmpty then [[]] else X) ≠ [] := by
  split
  · simp
  · rename_i h
    simpa using h

theorem toRawLines_ne_nil (rendered : Str) : toRawLines rendered ≠ [] := by
  unfold toRawLines
  exact ite_isEmpty_ne_nil _

theorem splitToRows_ne_nil (cfg : Config) (text : Str) :
    splitToRows cfg text ≠ [] := by
  unfold splitToRows
  exact ite_isEmpty_ne_nil _

theorem renderLinesOf_ne_nil (cfg : Config) (rendered : Str) :
    renderLinesOf cfg rendered ≠ [] := by
  unfold renderLinesOf
  split
  · exact splitToRows_ne_nil cfg rendered
  · exact toRawLines_ne_nil rendered

theorem nextLinesOf_eq (cfg : Config) (rendered : Str) :
    nextLinesOf cfg rendered =
      if cfg.tailRows ≠ 0 ∧ (renderLinesOf cfg rendered).length > cfg.tailRows
      then (renderLinesOf cfg rendered).drop
        ((renderLinesOf cfg rendered).length - cfg.tailRows)
      else renderLinesOf cfg rendered := rfl

theorem nextLinesOf_ne_nil (cfg : Config) (rendered : Str) :
    nextLinesOf cfg rendered ≠ [] := by
  rw [nextLinesOf_eq]
  split
  · rename_i h
    intro hnil
    have hlen := congrArg List.length hnil
    rw [List.length_drop] at hlen
    simp only [List.length_nil] at hlen
    omega
  · exact renderLinesOf_ne_nil cfg rendered

theorem nextLinesOf_tail0 (cfg : Config) (rendered : Str)
    (h : cfg.tailRows = 0) : nextLinesOf cfg rendered = toRawLines rendered := by
  simp [nextLinesOf, renderLinesOf, h]

theorem nextHeightsOf_tail0 (cfg : Config) (rendered : Str)
    (h : cfg.tailRows = 0) : nextHeightsOf cfg rendered = rawHeightsOf cfg rendered := by
  simp [nextHeightsOf, h]

theorem nextRowsOf_tail0 (cfg : Config) (rendered : Str)
    (h : cfg.tailRows = 0) : nextRowsOf cfg rendered = totalRowsOf cfg rendered := by
  simp [nextRowsOf, h]

theorem appendStep_lines_eq (cfg : Config) (rendered : Str) :
    (if cfg.tailRows ≠ 0 then nextLinesOf cfg rendered else toRawLines rendered) =
      nextLinesOf cfg rendered := by
  split
  · rfl
  · rename_i h
    rw [nextLinesOf_tail0 cfg rendered (by simpa using h)]

theorem appendStep_heights_eq (cfg : Config) (rendered : Str) :
    (if cfg.tailRows ≠ 0 then nextHeightsOf cfg rendered
      else rawHeightsOf cfg rendered) = nextHeightsOf cfg rendered := by
  split
  · rfl
  · rename_i h
    rw [nextHeightsOf_tail0 cfg rendered (by simpa using h)]

theorem appendStep_rows_eq (cfg : Config) (rendered : Str) :
    (if cfg.tailRows ≠ 0 then nextRowsOf cfg rendered
      else totalRowsOf cfg rendered) = nextRowsOf cfg rendered := by
  split
  · rfl
  · rename_i h
    rw [nextRowsOf_tail0 cfg rendered (by simpa using h)]

theorem overflowEvents_append (a b : List Event) :
    overflowEvents (a ++ b) = overflowEvents a ++ overflowEvents b := by
  simp [overflowEvents]

theorem appendStep_state_overflowed (cfg : Config) (st : EngineState)
    (r : Str) : ((appendStep cfg st r).state).overflowed = st.overflowed := by
  simp only [appendStep]
  split
  · rfl
  · rfl

theorem appendStep_state_notified (cfg : Config) (st : EngineState)
    (r : Str) : ((appendStep cfg st r).state).overflowNotified = st.overflowNotified := by
  simp only [appendStep]
  split
  · rfl
  · rfl

theorem appendStep_events_quiet (cfg : Config) (st : EngineState) (r : Str) :
    overflowEvents (appendStep cfg st r).events = [] := by
  simp only [appendStep]
  split
  · rfl
  · rfl

theorem overflowHaltStep_state (cfg : Config) (st0 : EngineState)
    (ev : List Event) :
    (overflowHaltStep cfg st0 ev).state =
      { st0 with
        cursorHidden := (hideCursorStep cfg st0.cursorHidden).2
        previousLines := []
        previousLineHeights := []
        cursorRow := 0 } := by
  simp only [overflowHaltStep]
  split
  · rfl
  · rfl

theorem overflowHaltStep_events (cfg : Config) (st0 : EngineState)
    (ev : List Event) :
    overflowEvents (overflowHaltStep cfg st0 ev).events = overflowEvents ev := by
  simp only [overflowHaltStep]
  split
  · rfl
  · rw [overflowEvents_append]
    simp [overflowEvents]

theorem fullRedraw_state (cfg : Config) (st0 : EngineState)
    (clearMode : Option ClearMode) (ev : List Event) (r : Str) :
    (fullRedraw cfg st0 clearMode ev r).state =
      { st0 with
        cursorHidden := (hideCursorStep cfg st0.cursorHidden).2
        cursorRow := nextRowsOf cfg r
        previousLines := nextLinesOf cfg r
        previousLineHeights := nextHeightsOf cfg r
        previousRenderedRaw := r } := rfl

theorem partialRedraw_state (cfg : Config) (st0 : EngineState)
    (ev : List Event) (firstChanged : Nat) (r : Str) :
    (partialRedraw cfg st0 ev firstChanged r).state =
      { st0 with
        cursorHidden := (hideCursorStep cfg st0.cursorHidden).2
        cursorRow := nextRowsOf cfg r
        previousLines := nextLinesOf cfg r
        previousLineHeights := nextHeightsOf cfg r
        previousRenderedRaw := r } := rfl

theorem latchedState_of_false (cfg : Config) (st : EngineState) (r : Str)
    (h : overTrig cfg st r = false) : latchedState cfg st r = st := by
  unfold latchedState
  rw [h]
  simp

theorem latchEvents_of_false (cfg : Config) (st : EngineState) (r : Str)
    (h : overTrig cfg st r = false) : latchEvents cfg st r = [] := by
  unfold latchEvents
  rw [h]
  simp

theorem latchEvents_of_notified (cfg : Config) (st : EngineState) (r : Str)
    (h : st.overflowNotified = true) : latchEvents cfg st r = [] := by
  unfold latchEvents
  rw [h]
  simp

theorem latchedState_overflowed (cfg : Config) (st : EngineState) (r : Str) :
    (latchedState cfg st r).overflowed = (st.overflowed || overTrig cfg st r) := by
  unfold latchedState
  by_cases h : overTrig cfg st r = true
  · rw [if_pos h, h]
    simp
  · rw [if_neg h]
    rw [Bool.not_eq_true] at h
    rw [h]
    simp

theorem latchedState_notified (cfg : Config) (st : EngineState) (r : Str) :
    (latchedState cfg st r).overflowNotified =
      (st.overflowNotified || overTrig cfg st r) := by
  unfold latchedState
  by_cases h : overTrig cfg st r = true
  · rw [if_pos h, h]
    simp
  · rw [if_neg h]
    rw [Bool.not_eq_true] at h
    rw [h]
    simp

theorem latchedState_previousLines (cfg : Config) (st : EngineState) (r : Str) :
    (latchedState cfg st r).previousLines = st.previousLines := by
  unfold latchedState
  split
  · rfl
  · rfl

theorem latchedState_previousLineHeights (cfg : Config) (st : EngineState)
    (r : Str) :
    (latchedState cfg st r).previousLineHeights = st.previousLineHeights := by
  unfold latchedState
  split
  · rfl
  · rfl

theorem latchedState_cursorRow (cfg : Config) (st : EngineState) (r : Str) :
    (latchedState cfg st r).cursorRow = st.cursorRow := by
  unfold latchedState
  split
  · rfl
  · rfl

theorem latchedState_cursorHidden (cfg : Config) (st : EngineState) (r : Str) :
    (latchedState cfg st r).cursorHidden = st.cursorHidden := by
  unfold latchedState
  split
  · rfl
  · rfl

theorem latchedState_previousRenderedRaw (cfg : Config) (st : EngineState)
    (r : Str) :
    (latchedState cfg st r).previousRenderedRaw = st.previousRenderedRaw := by
  unfold latchedState
  split
  · rfl
  · rfl

theorem overTrig_false_of_overflowed (cfg : Config) (st : EngineState) (r : Str)
    (h : st.overflowed = true) : overTrig cfg st r = false := by
  unfold overTrig
  rw [h]
  simp

theorem overTrig_after (cfg : Config) (st st' : EngineState) (r : Str)
    (h : st'.overflowed = (st.overflowed || overTrig cfg st r)) :
    overTrig cfg st' r = false := by
  unfold overTrig at h ⊢
  cases hd : decide (cfg.maxRows ≠ 0 ∧ overflowRowsOf cfg r > cfg.maxRows) <;>
    cases ho : st.overflowed <;> simp_all

theorem overflowEvents_latchEvents (cfg : Config) (st : EngineState) (r : Str) :
    overflowEvents (latchEvents cfg st r) = latchEvents cfg st r := by
  unfold latchEvents
  split
  · rfl
  · rfl

theorem appendStep_empty_eq (cfg : Config) (st : EngineState) (r : Str)
    (h : (r.drop st.previousRenderedRaw.length).isEmpty = true) :
    appendStep cfg st r =
      ⟨none,
        { st with
          previousRenderedRaw := r
          previousLines :=
            if cfg.tailRows ≠ 0 then nextLinesOf cfg r else toRawLines r
          previousLineHeights :=
            if cfg.tailRows ≠ 0 then nextHeightsOf cfg r else rawHeightsOf cfg r
          cursorRow :=
            if cfg.tailRows ≠ 0 then nextRowsOf cfg r else totalRowsOf cfg r },
        []⟩ := by
  simp only [appendStep]
  rw [if_pos h]

theorem appendStep_nonempty_eq (cfg : Config) (st : EngineState) (r : Str)
    (h : ¬(r.drop st.previousRenderedRaw.length).isEmpty = true) :
    appendStep cfg st r =
      ⟨some { st with cursorHidden := (hideCursorStep cfg st.cursorHidden).2 },
        { st with
          cursorHidden := (hideCursorStep cfg st.cursorHidden).2
          previousRenderedRaw := r
          previousLines :=
            if cfg.tailRows ≠ 0 then nextLinesOf cfg r else toRawLines r
          previousLineHeights :=
            if cfg.tailRows ≠ 0 then nextHeightsOf cfg r else rawHeightsOf cfg r
          cursorRow :=
            if cfg.tailRows ≠ 0 then nextRowsOf cfg r else totalRowsOf cfg r },
        [.write (appendFrame cfg st r)]⟩ := by
  simp only [appendStep]
  rw [if_neg h]

theorem renderCore_dead (cfg : Config) (st : EngineState) (x : Str)
    (h1 : st.overflowed = true) (h2 : cfg.tailRows = 0) :
    renderCore cfg st x = ⟨none, st, []⟩ := by
  simp only [renderCore]
  rw [if_pos ⟨h1, h2⟩]

theorem renderCore_not_dead (cfg : Config) (st : EngineState) (x : Str)
    (h : ¬(st.overflowed = true ∧ cfg.tailRows = 0)) :
    renderCore cfg st x =
      if appendCond cfg st (toRenderedText cfg x) then
        appendStep cfg st (toRenderedText cfg x)
      else mainStep cfg st (toRenderedText cfg x) := by
  simp only [renderCore]
  rw [if_neg h]

theorem mainStep_noop (cfg : Config) (st : EngineState) (r : Str)
    (hov : overTrig cfg st r = false)
    (hne : st.previousLines.isEmpty = false)
    (hfd : firstDiff st.previousLines (nextLinesOf cfg r) = none) :
    mainStep cfg st r = ⟨none, st, []⟩ := by
  simp only [mainStep]
  rw [if_neg (by simp [hov])]
  rw [if_neg (by simp [hov, hne])]
  rw [hfd]
  rw [latchedState_of_false cfg st r hov, latchEvents_of_false cfg st r hov]

theorem appendCond_of_synced (cfg : Config) (st : EngineState) (r : Str)
    (happ : cfg.appendWhenPossible = true)
    (hraw : st.previousRenderedRaw = r) (hr : r ≠ []) :
    appendCond cfg st r = true := by
  unfold appendCond
  rw [happ, hraw]
  match r with
  | [] => exact absurd rfl hr
  | c :: t => simp [List.isPrefixOf_iff_prefix]

theorem isEmpty_false_of_ne_nil {α : Type} {l : List α} (h : l ≠ []) :
    l.isEmpty = false := by
  match l with
  | [] => exact absurd rfl h
  | _ :: _ => rfl

/-- A state whose bookkeeping agrees with the current rendered text is
settled: rendering the same input again writes nothing and changes
nothing. -/
theorem renderCore_settled_synced (cfg : Config) (st : EngineState) (x : Str)
    (hraw : st.previousRenderedRaw = toRenderedText cfg x)
    (hlines : st.previousLines = nextLinesOf cfg (toRenderedText cfg x))
    (hh : st.previousLineHeights = nextHeightsOf cfg (toRenderedText cfg x))
    (hcr : st.cursorRow = nextRowsOf cfg (toRenderedText cfg x))
    (hov : overTrig cfg st (toRenderedText cfg x) = false ∨
      cfg.appendWhenPossible = true) :
    renderCore cfg st x = ⟨none, st, []⟩ := by
  by_cases hdead : st.overflowed = true ∧ cfg.tailRows = 0
  · exact renderCore_dead cfg st x hdead.1 hdead.2
  · rw [renderCore_not_dead cfg st x hdead]
    by_cases hap : appendCond cfg st (toRenderedText cfg x) = true
    · rw [if_pos hap]
      have hemp :
          ((toRenderedText cfg x).drop st.previousRenderedRaw.length).isEmpty =
            true := by
        rw [hraw, List.drop_length]
        rfl
      rw [appendStep_empty_eq cfg st _ hemp]
      have hstate :
          ({ st with
            previousRenderedRaw := toRenderedText cfg x
            previousLines :=
              if cfg.tailRows ≠ 0 then nextLinesOf cfg (toRenderedText cfg x)
              else toRawLines (toRenderedText cfg x)
            previousLineHeights :=
              if cfg.tailRows ≠ 0 then nextHeightsOf cfg (toRenderedText cfg x)
              else rawHeightsOf cfg (toRenderedText cfg x)
            cursorRow :=
              if cfg.tailRows ≠ 0 then nextRowsOf cfg (toRenderedText cfg x)
              else totalRowsOf cfg (toRenderedText cfg x) } : EngineState) = st := by
        obtain ⟨pl, ph, cr, ch, ov, nf, pr⟩ := st
        simp only at hraw hlines hh hcr
        rw [appendStep_lines_eq, appendStep_heights_eq, appendStep_rows_eq,
          ← hlines, ← hh, ← hcr, ← hraw]
      rw [hstate]
    · rw [if_neg hap]
      have hov' : overTrig cfg st (toRenderedText cfg x) = false := by
        rcases hov with h | h
        · exact h
        · exact absurd
            (appendCond_of_synced cfg st _ h hraw (toRenderedText_ne_nil cfg x))
            hap
      apply mainStep_noop cfg st _ hov'
      · rw [hlines]
        exact isEmpty_false_of_ne_nil (nextLinesOf_ne_nil cfg _)
      · rw [hlines]
        exact firstDiff_self _

/-- A state whose previous frame already coincides rowwise with the new
frame (and that cannot overflow or append) is settled. -/
theorem renderCore_settled_stale (cfg : Config) (st : EngineState) (x : Str)
    (hap : appendCond cfg st (toRenderedText cfg x) = false)
    (hov : overTrig cfg st (toRenderedText cfg x) = false)
    (hne : st.previousLines.isEmpty = false)
    (hfd : firstDiff st.previousLines
      (nextLinesOf cfg (toRenderedText cfg x)) = none) :
    renderCore cfg st x = ⟨none, st, []⟩ := by
  by_cases hdead : st.overflowed = true ∧ cfg.tailRows = 0
  · exact renderCore_dead cfg st x hdead.1 hdead.2
  · rw [renderCore_not_dead cfg st x hdead, if_neg (by simp [hap])]
    exact mainStep_noop cfg st _ hov hne hfd

theorem render_second_call (cfg : Config) (st : EngineState) (x : Str) :
    renderCore cfg ((renderCore cfg st x).state) x =
      ⟨none, (renderCore cfg st x).state, []⟩ := by
  by_cases hdead : st.overflowed = true ∧ cfg.tailRows = 0
  · rw [renderCore_dead cfg st x hdead.1 hdead.2]
    exact renderCore_dead cfg st x hdead.1 hdead.2
  · rw [renderCore_not_dead cfg st x hdead]
    by_cases hap : appendCond cfg st (toRenderedText cfg x) = true
    · rw [if_pos hap]
      have happ : cfg.appendWhenPossible = true := by
        unfold appendCond at hap
        simp only [Bool.and_eq_true] at hap
        exact hap.1.1
      by_cases hemp :
          ((toRenderedText cfg x).drop st.previousRenderedRaw.length).isEmpty =
            true
      · rw [appendStep_empty_eq cfg st _ hemp]
        apply renderCore_settled_synced
        · rfl
        · exact appendStep_lines_eq cfg _
        · exact appendStep_heights_eq cfg _
        · exact appendStep_rows_eq cfg _
        · exact Or.inr happ
      · rw [appendStep_nonempty_eq cfg st _ hemp]
        apply renderCore_settled_synced
        · rfl
        · exact appendStep_lines_eq cfg _
        · exact appendStep_heights_eq cfg _
        · exact appendStep_rows_eq cfg _
        · exact Or.inr happ
    · rw [if_neg hap]
      rw [Bool.not_eq_true] at hap
      simp only [mainStep]
      split
      · rename_i hhalt
        rw [overflowHaltStep_state]
        apply renderCore_dead
        · exact (latchedState_overflowed cfg st _).trans
            (by rw [hhalt.1]; simp)
        · exact hhalt.2
      · rename_i hnothalt
        split
        · rw [fullRedraw_state]
          apply renderCore_settled_synced
          · rfl
          · rfl
          · rfl
          · rfl
          · exact Or.inl (overTrig_after cfg st _ _
              (latchedState_overflowed cfg st _))
        · rename_i hff
          split
          · rename_i hfd
            apply renderCore_settled_stale
            · show appendCond cfg (latchedState cfg st (toRenderedText cfg x)) _ = false
              unfold appendCond
              rw [latchedState_previousRenderedRaw]
              unfold appendCond at hap
              exact hap
            · exact overTrig_after cfg st _ _
                (latchedState_overflowed cfg st _)
            · rw [latchedState_previousLines]
              simp only [Bool.or_eq_true, Bool.and_eq_true] at hff
              have h1 : ¬ st.previousLines.isEmpty = true :=
                fun hc => hff (Or.inl hc)
              rwa [Bool.not_eq_true] at h1
            · rw [latchedState_previousLines]
              exact hfd
          · split
            · rw [fullRedraw_state]
              apply renderCore_settled_synced
              · rfl
              · rfl
              · rfl
              · rfl
              · exact Or.inl (overTrig_after cfg st _ _
                  (latchedState_overflowed cfg st _))
            · rw [partialRedraw_state]
              apply renderCore_settled_synced
              · rfl
              · rfl
              · rfl
              · rfl
              · exact Or.inl (overTrig_after cfg st _ _
                  (latchedState_overflowed cfg st _))

theorem finish_preserves_overflowed (cfg : Config) (st : EngineState)
    (final : Option Str) :
    ((finish cfg st final).1).overflowed = st.overflowed := by
  cases final with
  | none =>
    simp only [finish]
    split
    · rfl
    · rfl
  | some f =>
    simp only [finish]
    split
    · rfl
    · rfl

theorem finish_no_overflow_events (cfg : Config) (st : EngineState)
    (final : Option Str) :
    overflowEvents (finish cfg st final).2 = [] := by
  cases final with
  | none =>
    simp only [finish]
    split
    · rfl
    · rfl
  | some f =>
    simp only [finish]
    split
    · rfl
    · rfl

end Markdansi

namespace Markdansi

theorem renderCore_overflowed_mono (cfg : Config) (st : EngineState) (x : Str)
    (h : st.overflowed = true) :
    ((renderCore cfg st x).state).overflowed = true := by
  by_cases hdead : st.overflowed = true ∧ cfg.tailRows = 0
  · rw [renderCore_dead cfg st x hdead.1 hdead.2]
    exact h
  · rw [renderCore_not_dead cfg st x hdead]
    split
    · rw [appendStep_state_overflowed]
      exact h
    · have hov : overTrig cfg st (toRenderedText cfg x) = false :=
        overTrig_false_of_overflowed cfg st _ h
      simp only [mainStep]
      rw [if_neg (by simp [hov])]
      split
      · rw [fullRedraw_state]
        show (latchedState cfg st (toRenderedText cfg x)).overflowed = true
        rw [latchedState_overflowed, h]
        simp
      · split
        · show (latchedState cfg st (toRenderedText cfg x)).overflowed = true
          rw [latchedState_overflowed, h]
          simp
        · split
          · rw [fullRedraw_state]
            show (latchedState cfg st (toRenderedText cfg x)).overflowed = true
            rw [latchedState_overflowed, h]
            simp
          · rw [partialRedraw_state]
            show (latchedState cfg st (toRenderedText cfg x)).overflowed = true
            rw [latchedState_overflowed, h]
            simp

theorem renderCore_notified_mono (cfg : Config) (st : EngineState) (x : Str)
    (h : st.overflowNotified = true) :
    ((renderCore cfg st x).state).overflowNotified = true := by
  by_cases hdead : st.overflowed = true ∧ cfg.tailRows = 0
  · rw [renderCore_dead cfg st x hdead.1 hdead.2]
    exact h
  · rw [renderCore_not_dead cfg st x hdead]
    split
    · rw [appendStep_state_notified]
      exact h
    · simp only [mainStep]
      split
      · rw [overflowHaltStep_state]
        show (latchedState cfg st (toRenderedText cfg x)).overflowNotified = true
        rw [latchedState_notified, h]
        simp
      · split
        · rw [fullRedraw_state]
          show (latchedState cfg st (toRenderedText cfg x)).overflowNotified = true
          rw [latchedState_notified, h]
          simp
        · split
          · show (latchedState cfg st (toRenderedText cfg x)).overflowNotified =
              true
            rw [latchedState_notified, h]
            simp
          · split
            · rw [fullRedraw_state]
              show (latchedState cfg st (toRenderedText cfg x)).overflowNotified =
                true
              rw [latchedState_notified, h]
              simp
            · rw [partialRedraw_state]
              show (latchedState cfg st (toRenderedText cfg x)).overflowNotified =
                true
              rw [latchedState_notified, h]
              simp

theorem fullRedraw_events (cfg : Config) (st0 : EngineState)
    (clearMode : Option ClearMode) (ev : List Event) (r : Str) :
    (fullRedraw cfg st0 clearMode ev r).events =
      ev ++ [.write (fullRedrawFrame cfg st0 clearMode r)] := rfl

theorem partialRedraw_events (cfg : Config) (st0 : EngineState)
    (ev : List Event) (firstChanged : Nat) (r : Str) :
    (partialRedraw cfg st0 ev firstChanged r).events =
      ev ++ [.write (partialRedrawFrame cfg st0 firstChanged r)] := rfl

theorem renderCore_notified_quiet (cfg : Config) (st : EngineState) (x : Str)
    (h : st.overflowNotified = true) :
    overflowEvents (renderCore cfg st x).events = [] := by
  have hle : latchEvents cfg st (toRenderedText cfg x) = [] :=
    latchEvents_of_notified cfg st _ h
  by_cases hdead : st.overflowed = true ∧ cfg.tailRows = 0
  · rw [renderCore_dead cfg st x hdead.1 hdead.2]
    rfl
  · rw [renderCore_not_dead cfg st x hdead]
    split
    · exact appendStep_events_quiet cfg st _
    · simp only [mainStep]
      split
      · rw [overflowHaltStep_events, hle]
        rfl
      · split
        · rw [fullRedraw_events, overflowEvents_append, hle]
          rfl
        · split
          · show overflowEvents (latchEvents cfg st (toRenderedText cfg x)) = []
            rw [hle]
            rfl
          · split
            · rw [fullRedraw_events, overflowEvents_append, hle]
              rfl
            · rw [partialRedraw_events, overflowEvents_append, hle]
              rfl

/-- C1: for every configuration (hence every deterministic injected
`renderFrame`), every engine state and every input `x`, a second
`render(x)` immediately following a `render(x)` emits no events (zero
bytes are written, no callback fires) and returns the engine state of the
first call unchanged. -/
theorem render_idempotent (cfg : Config) (st : EngineState) (x : Str) :
    render cfg (render cfg st x).1 x = ((render cfg st x).1, []) := by
  have h := render_second_call cfg st x
  simp only [render, h]

/-- C3 is refuted as stated: the differ treats a row index beyond the
shorter frame as an empty row, not as different-from-any-present-row.
With previous frame `["a"]` and new frame `["a", ""]` the lengths differ
yet no first-changed index exists, and the whole `render` call is a
no-op: rendering "a" and then "a\n\n" produces a frame of different
length but writes nothing and leaves the state unchanged. -/
theorem firstDiff_length_mismatch_noop :
    firstDiff [['a']] [['a'], []] = none ∧
    ([['a']] : List Str).length ≠ ([['a'], []] : List Str).length ∧
    (render (mkConfig {}) initState ['a']).1.previousLines = [['a']] ∧
    nextLinesOf (mkConfig {})
      (toRenderedText (mkConfig {}) ('a' :: '\n' :: '\n' :: [])) =
      [['a'], []] ∧
    render (mkConfig {}) (render (mkConfig {}) initState ['a']).1
      ('a' :: '\n' :: '\n' :: []) =
      ((render (mkConfig {}) initState ['a']).1, []) := by
  refine ⟨by decide, by decide, by decide, by decide, by decide⟩

/-- C3 (amended): the frame differ returns the first index at which the
previous and the new row sequences differ by strict string equality,
where a row index beyond the shorter sequence is treated as an empty row
(hence equal to a present empty row and different from any non-empty
one); it reports no change exactly when the two sequences padded with
empty rows agree everywhere, so frames of different lengths are a no-op
precisely when every surplus row is empty. -/
theorem firstDiff_characterization (prev next : List Str) :
    (∀ i, firstDiff prev next = some i ↔
      prev.getD i [] ≠ next.getD i [] ∧
        ∀ j < i, prev.getD j [] = next.getD j []) ∧
    (firstDiff prev next = none ↔ ∀ i, prev.getD i [] = next.getD i []) :=
  ⟨firstDiff_some_iff prev next, firstDiff_none_iff prev next⟩

theorem firstDiff_characterization_witness :
    firstDiff [['a'], ['b']] [['a'], ['c']] = some 1 := by
  refine ((firstDiff_characterization [['a'], ['b']] [['a'], ['c']]).1 1).mpr
    ⟨by decide, ?_⟩
  intro j hj
  have hj0 : j = 0 := by omega
  subst hj0
  decide

/-- C7: with `tailRows = 2` and the identity `renderFrame`,
`render("a\nb\nc")` computes the physical rows of the whole buffer, keeps
only the last two rows (each of unit height) for drawing, and its written
output stripped of escape sequences contains "b" and "c" but never "a". -/
theorem tailRows_renders_only_tail :
    splitToRows (mkConfig { tailRows := some 2 })
      (toRenderedText (mkConfig { tailRows := some 2 })
        ('a' :: '\n' :: 'b' :: '\n' :: 'c' :: [])) = [['a'], ['b'], ['c']] ∧
    (render (mkConfig { tailRows := some 2 }) initState
      ('a' :: '\n' :: 'b' :: '\n' :: 'c' :: [])).1.previousLines =
      [['b'], ['c']] ∧
    (render (mkConfig { tailRows := some 2 }) initState
      ('a' :: '\n' :: 'b' :: '\n' :: 'c' :: [])).1.previousLineHeights =
      [1, 1] ∧
    (render (mkConfig { tailRows := some 2 }) initState
      ('a' :: '\n' :: 'b' :: '\n' :: 'c' :: [])).1.cursorRow = 2 ∧
    'b' ∈ stripAnsi (writtenChunks (render (mkConfig { tailRows := some 2 })
      initState ('a' :: '\n' :: 'b' :: '\n' :: 'c' :: [])).2) ∧
    'c' ∈ stripAnsi (writtenChunks (render (mkConfig { tailRows := some 2 })
      initState ('a' :: '\n' :: 'b' :: '\n' :: 'c' :: [])).2) ∧
    'a' ∉ stripAnsi (writtenChunks (render (mkConfig { tailRows := some 2 })
      initState ('a' :: '\n' :: 'b' :: '\n' :: 'c' :: [])).2) := by
  refine ⟨by decide, by decide, by decide, by decide, by decide, by decide,
    by decide⟩

end Markdansi

namespace Markdansi

/-- C8 is refuted as stated: a non-positive `width` option does not
disable splitting.  Option normalization maps it to the default of 80
columns, so a single logical line of 81 columns still splits into two
physical rows instead of one. -/
theorem width_nonpositive_still_splits :
    (normOptions { width := some (-1 : Rat) } asciiWidth (fun s => s)).width =
      80 ∧
    ((List.replicate 81 'a' : Str).splitOn '\n').length = 1 ∧
    (splitToRows (normOptions { width := some (-1 : Rat) } asciiWidth
      (fun s => s)) (List.replicate 81 'a')).length = 2 := by
  refine ⟨by decide, by decide, by decide⟩

/-- C8 (amended): a non-positive `width` option falls back to the default
of 80 columns, so the row splitter does split a logical line wider than
80 instead of keeping one physical row per logical line; the splitter
performs no splitting whenever the engine's normalized width is
non-positive, and normalization can produce such a width — not from a
non-positive option, but from a fractional option below one, which
passes the positivity check, floors to zero and thereby disables
splitting (shown at width option one half: normalized width 0 and an
81-column line kept as a single physical row). -/
theorem width_option_fallback :
    (∀ (o : LiveOptions) (cw : Char → Nat) (rf : Str → Str) (w : Rat),
      w ≤ 0 → (normOptions { o with width := some w } cw rf).width = 80) ∧
    (∀ (cfg : Config) (line activeSgr : Str), cfg.width ≤ 0 →
      splitLineToRows cfg line activeSgr = ([activeSgr ++ line], activeSgr)) ∧
    (normOptions { width := some (mkRat 1 2) } asciiWidth
      (fun s => s)).width = 0 ∧
    (splitToRows (normOptions { width := some (mkRat 1 2) } asciiWidth
      (fun s => s)) (List.replicate 81 'a')).length = 1 := by
  refine ⟨?_, ?_, by decide, by decide⟩
  · intro o cw rf w hw
    simp only [normOptions, normPos]
    rw [if_neg (not_lt.mpr hw)]
  · intro cfg line activeSgr h
    unfold splitLineToRows
    rw [if_pos h]

theorem width_option_fallback_witness :
    (normOptions { width := some (-7 : Rat) } asciiWidth (fun s => s)).width =
      80 ∧
    splitLineToRows
      { renderFrame := fun s => s
        synchronizedOutput := true
        hideCursor := true
        width := -1
        maxRows := 0
        tailRows := 0
        clearOnOverflow := true
        clearScrollbackOnOverflow := false
        appendWhenPossible := false
        charWidth := asciiWidth } (List.replicate 81 'a') [] =
      ([List.replicate 81 'a'], []) := by
  constructor
  · exact width_option_fallback.1 {} asciiWidth (fun s => s) (-7 : Rat)
      (by decide)
  · have h := width_option_fallback.2.1
      { renderFrame := fun s => s
        synchronizedOutput := true
        hideCursor := true
        width := -1
        maxRows := 0
        tailRows := 0
        clearOnOverflow := true
        clearScrollbackOnOverflow := false
        appendWhenPossible := false
        charWidth := asciiWidth } (List.replicate 81 'a') [] (by decide)
    rw [h]
    simp

/-- C9 is refuted as stated: the cursor-hidden flag is mutated before the
write sink is invoked.  On the very first `render("a")` with default
options, the state observed at the instant of the (only) write call has
`cursorHidden := true` while every other field still holds its pre-call
value, so it is neither the pre-call state nor the post-call state: a
throwing write leaves the state partially updated. -/
theorem render_write_throw_partial_state :
    (renderCore (mkConfig {}) initState ['a']).midState =
      some { initState with cursorHidden := true } ∧
    (renderCore (mkConfig {}) initState ['a']).midState ≠ some initState ∧
    (renderCore (mkConfig {}) initState ['a']).midState ≠
      some (renderCore (mkConfig {}) initState ['a']).state := by
  refine ⟨by decide, by decide, by decide⟩

/-- C9 (amended): `renderFrame` is invoked before any state mutation, and
at the instant the write sink is invoked only the cursor-hidden flag and
the overflow latches may already have been mutated: the previous rows,
their heights, the cursor row and the last rendered text still hold their
pre-call values and are updated only after the write returns.  The
all-or-nothing guarantee therefore fails only for `cursorHidden` and the
overflow latches. -/
theorem render_midState_fields (cfg : Config) (st : EngineState) (x : Str)
    (m : EngineState) (hm : (renderCore cfg st x).midState = some m) :
    m.previousLines = st.previousLines ∧
    m.previousLineHeights = st.previousLineHeights ∧
    m.cursorRow = st.cursorRow ∧
    m.previousRenderedRaw = st.previousRenderedRaw := by
  by_cases hdead : st.overflowed = true ∧ cfg.tailRows = 0
  · rw [renderCore_dead cfg st x hdead.1 hdead.2] at hm
    simp at hm
  · rw [renderCore_not_dead cfg st x hdead] at hm
    split at hm
    · by_cases hemp :
          ((toRenderedText cfg x).drop st.previousRenderedRaw.length).isEmpty =
            true
      · rw [appendStep_empty_eq cfg st _ hemp] at hm
        simp at hm
      · rw [appendStep_nonempty_eq cfg st _ hemp] at hm
        simp only [Option.some.injEq] at hm
        subst hm
        exact ⟨rfl, rfl, rfl, rfl⟩
    · simp only [mainStep] at hm
      split at hm
      · simp only [overflowHaltStep] at hm
        split at hm
        · simp at hm
        · simp only [Option.some.injEq] at hm
          subst hm
          exact ⟨latchedState_previousLines cfg st _,
            latchedState_previousLineHeights cfg st _,
            latchedState_cursorRow cfg st _,
            latchedState_previousRenderedRaw cfg st _⟩
      · split at hm
        · simp only [fullRedraw, Option.some.injEq] at hm
          subst hm
          exact ⟨latchedState_previousLines cfg st _,
            latchedState_previousLineHeights cfg st _,
            latchedState_cursorRow cfg st _,
            latchedState_previousRenderedRaw cfg st _⟩
        · split at hm
          · simp at hm
          · split at hm
            · simp only [fullRedraw, Option.some.injEq] at hm
              subst hm
              exact ⟨latchedState_previousLines cfg st _,
                latchedState_previousLineHeights cfg st _,
                latchedState_cursorRow cfg st _,
                latchedState_previousRenderedRaw cfg st _⟩
            · simp only [partialRedraw, Option.some.injEq] at hm
              subst hm
              exact ⟨latchedState_previousLines cfg st _,
                latchedState_previousLineHeights cfg st _,
                latchedState_cursorRow cfg st _,
                latchedState_previousRenderedRaw cfg st _⟩

theorem render_midState_fields_witness :
    ({ initState with cursorHidden := true } : EngineState).previousLines =
      initState.previousLines ∧
    ({ initState with cursorHidden := true } : EngineState).previousLineHeights =
      initState.previousLineHeights ∧
    ({ initState with cursorHidden := true } : EngineState).cursorRow =
      initState.cursorRow ∧
    ({ initState with cursorHidden := true } : EngineState).previousRenderedRaw =
      initState.previousRenderedRaw :=
  render_midState_fields (mkConfig {}) initState ['a']
    { initState with cursorHidden := true } (by decide)

/-- C6 is refuted as stated over the combined output of both calls: the
first call's full paint necessarily writes "b" and "c", so the full
written output across both calls, stripped of escape sequences, does
contain them. -/
theorem shrink_combined_output_contains_bc :
    'b' ∈ stripAnsi (writtenChunks
      ((render (mkConfig {}) initState
        ('a' :: '\n' :: 'b' :: '\n' :: 'c' :: [])).2 ++
      (render (mkConfig {})
        (render (mkConfig {}) initState
          ('a' :: '\n' :: 'b' :: '\n' :: 'c' :: [])).1 ['a']).2)) ∧
    'c' ∈ stripAnsi (writtenChunks
      ((render (mkConfig {}) initState
        ('a' :: '\n' :: 'b' :: '\n' :: 'c' :: [])).2 ++
      (render (mkConfig {})
        (render (mkConfig {}) initState
          ('a' :: '\n' :: 'b' :: '\n' :: 'c' :: [])).1 ['a']).2)) := by
  refine ⟨by decide, by decide⟩

/-- C6 (amended): `render("a\nb\nc")` followed by `render("a")` emits a
clear-to-end-of-screen sequence on the second call, and the second call's
written output, stripped of escape sequences, contains neither "b" nor
"c" (the first call's full paint necessarily contains both). -/
theorem shrink_second_call_clears :
    CLEAR_TO_END <:+: writtenChunks
      (render (mkConfig {})
        (render (mkConfig {}) initState
          ('a' :: '\n' :: 'b' :: '\n' :: 'c' :: [])).1 ['a']).2 ∧
    'b' ∉ stripAnsi (writtenChunks
      (render (mkConfig {})
        (render (mkConfig {}) initState
          ('a' :: '\n' :: 'b' :: '\n' :: 'c' :: [])).1 ['a']).2) ∧
    'c' ∉ stripAnsi (writtenChunks
      (render (mkConfig {})
        (render (mkConfig {}) initState
          ('a' :: '\n' :: 'b' :: '\n' :: 'c' :: [])).1 ['a']).2) := by
  refine ⟨by decide, by decide, by decide⟩

end Markdansi

namespace Markdansi

theorem render_append_events (cfg : Config) (st : EngineState) (x : Str)
    (happ : cfg.appendWhenPossible = true)
    (hne : st.previousRenderedRaw ≠ [])
    (hpre : st.previousRenderedRaw.isPrefixOf (toRenderedText cfg x) = true)
    (hgrow : (toRenderedText cfg x).drop st.previousRenderedRaw.length ≠ [])
    (hdead : ¬(st.overflowed = true ∧ cfg.tailRows = 0)) :
    (render cfg st x).2 =
      [.write ((hideCursorStep cfg st.cursorHidden).1
        ++ (if cfg.synchronizedOutput then BSU else [])
        ++ crlfNormalize
          ((toRenderedText cfg x).drop st.previousRenderedRaw.length)
        ++ (if cfg.synchronizedOutput then ESU else []))] := by
  have hap : appendCond cfg st (toRenderedText cfg x) = true := by
    unfold appendCond
    rw [happ, hpre, isEmpty_false_of_ne_nil hne]
    rfl
  have hemp :
      ¬((toRenderedText cfg x).drop st.previousRenderedRaw.length).isEmpty =
        true := by
    rw [isEmpty_false_of_ne_nil hgrow]
    simp
  simp only [render]
  rw [renderCore_not_dead cfg st x hdead, if_pos hap,
    appendStep_nonempty_eq cfg st _ hemp]
  rfl

/-- C5: the append fast path.  Generally, whenever append optimization is
on, a previously rendered text exists, the new rendered text strictly
extends it byte-for-byte and the engine is not halted, the call emits
exactly one write whose content is the appended suffix with newlines
translated to CRLF (wrapped only in cursor-hiding and synchronized-output
framing — no cursor movement, no clearing).  Concretely, with
`appendWhenPossible = true`, no `tailRows` and the identity `renderFrame`,
`render("hello\n")` followed by `render("hello\nworld\n")` writes a single
chunk equal to BSU ++ "world\r\n" ++ ESU: stripped of escape sequences it
is "world\r\n", it contains no clear-to-end-of-screen sequence and no
cursor-movement sequence. -/
theorem append_fast_path_suffix_only :
    (∀ (cfg : Config) (st : EngineState) (x : Str),
      cfg.appendWhenPossible = true →
      st.previousRenderedRaw ≠ [] →
      st.previousRenderedRaw.isPrefixOf (toRenderedText cfg x) = true →
      (toRenderedText cfg x).drop st.previousRenderedRaw.length ≠ [] →
      ¬(st.overflowed = true ∧ cfg.tailRows = 0) →
      (render cfg st x).2 =
        [.write ((hideCursorStep cfg st.cursorHidden).1
          ++ (if cfg.synchronizedOutput then BSU else [])
          ++ crlfNormalize
            ((toRenderedText cfg x).drop st.previousRenderedRaw.length)
          ++ (if cfg.synchronizedOutput then ESU else []))]) ∧
    (render (mkConfig { appendWhenPossible := some true })
      (render (mkConfig { appendWhenPossible := some true }) initState
        ('h' :: 'e' :: 'l' :: 'l' :: 'o' :: '\n' :: [])).1
      ('h' :: 'e' :: 'l' :: 'l' :: 'o' :: '\n' ::
        'w' :: 'o' :: 'r' :: 'l' :: 'd' :: '\n' :: [])).2 =
      [.write (BSU ++ ('w' :: 'o' :: 'r' :: 'l' :: 'd' :: '\r' :: '\n' :: [])
        ++ ESU)] ∧
    stripAnsi (writtenChunks
      (render (mkConfig { appendWhenPossible := some true })
        (render (mkConfig { appendWhenPossible := some true }) initState
          ('h' :: 'e' :: 'l' :: 'l' :: 'o' :: '\n' :: [])).1
        ('h' :: 'e' :: 'l' :: 'l' :: 'o' :: '\n' ::
          'w' :: 'o' :: 'r' :: 'l' :: 'd' :: '\n' :: [])).2) =
      ('w' :: 'o' :: 'r' :: 'l' :: 'd' :: '\r' :: '\n' :: []) ∧
    ¬ CLEAR_TO_END <:+: writtenChunks
      (render (mkConfig { appendWhenPossible := some true })
        (render (mkConfig { appendWhenPossible := some true }) initState
          ('h' :: 'e' :: 'l' :: 'l' :: 'o' :: '\n' :: [])).1
        ('h' :: 'e' :: 'l' :: 'l' :: 'o' :: '\n' ::
          'w' :: 'o' :: 'r' :: 'l' :: 'd' :: '\n' :: [])).2 ∧
    cursorMoveFree (writtenChunks
      (render (mkConfig { appendWhenPossible := some true })
        (render (mkConfig { appendWhenPossible := some true }) initState
          ('h' :: 'e' :: 'l' :: 'l' :: 'o' :: '\n' :: [])).1
        ('h' :: 'e' :: 'l' :: 'l' :: 'o' :: '\n' ::
          'w' :: 'o' :: 'r' :: 'l' :: 'd' :: '\n' :: [])).2) = true := by
  refine ⟨render_append_events, by decide, by decide, by decide, by decide⟩

theorem append_fast_path_suffix_only_witness :
    (render (mkConfig { appendWhenPossible := some true })
      (render (mkConfig { appendWhenPossible := some true }) initState
        ('h' :: 'e' :: 'l' :: 'l' :: 'o' :: '\n' :: [])).1
      ('h' :: 'e' :: 'l' :: 'l' :: 'o' :: '\n' ::
        'w' :: 'o' :: 'r' :: 'l' :: 'd' :: '\n' :: [])).2 =
      [.write ((hideCursorStep (mkConfig { appendWhenPossible := some true })
        (render (mkConfig { appendWhenPossible := some true }) initState
          ('h' :: 'e' :: 'l' :: 'l' :: 'o' :: '\n' :: [])).1.cursorHidden).1
        ++ (if (mkConfig { appendWhenPossible := some true }).synchronizedOutput
            then BSU else [])
        ++ crlfNormalize
          ((toRenderedText (mkConfig { appendWhenPossible := some true })
            ('h' :: 'e' :: 'l' :: 'l' :: 'o' :: '\n' ::
              'w' :: 'o' :: 'r' :: 'l' :: 'd' :: '\n' :: [])).drop
            (render (mkConfig { appendWhenPossible := some true }) initState
              ('h' :: 'e' :: 'l' :: 'l' :: 'o' :: '\n' :: [])).1.previousRenderedRaw.length)
        ++ (if (mkConfig { appendWhenPossible := some true }).synchronizedOutput
            then ESU else []))] :=
  append_fast_path_suffix_only.1 (mkConfig { appendWhenPossible := some true })
    (render (mkConfig { appendWhenPossible := some true }) initState
      ('h' :: 'e' :: 'l' :: 'l' :: 'o' :: '\n' :: [])).1
    ('h' :: 'e' :: 'l' :: 'l' :: 'o' :: '\n' ::
      'w' :: 'o' :: 'r' :: 'l' :: 'd' :: '\n' :: [])
    (by decide) (by decide) (by decide) (by decide) (by decide)

end Markdansi

namespace Markdansi

/-- C2: with `maxRows = 2`, no `tailRows` and the identity `renderFrame`,
`render("a\nb")` fires no overflow callback, the following
`render("a\nb\nc")` fires it exactly once with rows 3 and maxRows 2 and
latches the overflow flag; every subsequent `render` call from that state
writes nothing and changes nothing.  Generally, the overflow latch is
never reset by any later `render` or `finish` call, and once the
notification latch is set no `render` or `finish` call ever emits another
overflow callback — the callback fires at most once per engine lifetime. -/
theorem overflow_latch_once :
    overflowEvents (render (mkConfig { maxRows := some 2 }) initState
      ('a' :: '\n' :: 'b' :: [])).2 = [] ∧
    overflowEvents (render (mkConfig { maxRows := some 2 })
      (render (mkConfig { maxRows := some 2 }) initState
        ('a' :: '\n' :: 'b' :: [])).1
      ('a' :: '\n' :: 'b' :: '\n' :: 'c' :: [])).2 = [.overflow 3 2] ∧
    (render (mkConfig { maxRows := some 2 })
      (render (mkConfig { maxRows := some 2 }) initState
        ('a' :: '\n' :: 'b' :: [])).1
      ('a' :: '\n' :: 'b' :: '\n' :: 'c' :: [])).1.overflowed = true ∧
    (∀ x : Str,
      render (mkConfig { maxRows := some 2 })
        (render (mkConfig { maxRows := some 2 })
          (render (mkConfig { maxRows := some 2 }) initState
            ('a' :: '\n' :: 'b' :: [])).1
          ('a' :: '\n' :: 'b' :: '\n' :: 'c' :: [])).1 x =
        ((render (mkConfig { maxRows := some 2 })
          (render (mkConfig { maxRows := some 2 }) initState
            ('a' :: '\n' :: 'b' :: [])).1
          ('a' :: '\n' :: 'b' :: '\n' :: 'c' :: [])).1, [])) ∧
    (∀ (cfg : Config) (st : EngineState) (x : Str), st.overflowed = true →
      ((render cfg st x).1).overflowed = true) ∧
    (∀ (cfg : Config) (st : EngineState) (x : Str),
      st.overflowNotified = true →
      overflowEvents (render cfg st x).2 = [] ∧
      ((render cfg st x).1).overflowNotified = true) ∧
    (∀ (cfg : Config) (st : EngineState) (f : Option Str),
      ((finish cfg st f).1).overflowed = st.overflowed ∧
      overflowEvents (finish cfg st f).2 = []) := by
  refine ⟨by decide, by decide, by decide, ?_, ?_, ?_, ?_⟩
  · intro x
    simp only [render]
    rw [renderCore_dead _ _ _ (by decide) (by decide)]
  · intro cfg st x h
    simp only [render]
    exact renderCore_overflowed_mono cfg st x h
  · intro cfg st x h
    simp only [render]
    exact ⟨renderCore_notified_quiet cfg st x h,
      renderCore_notified_mono cfg st x h⟩
  · intro cfg st f
    exact ⟨finish_preserves_overflowed cfg st f,
      finish_no_overflow_events cfg st f⟩

theorem overflow_latch_once_witness :
    render (mkConfig { maxRows := some 2 })
      (render (mkConfig { maxRows := some 2 })
        (render (mkConfig { maxRows := some 2 }) initState
          ('a' :: '\n' :: 'b' :: [])).1
        ('a' :: '\n' :: 'b' :: '\n' :: 'c' :: [])).1 ['z'] =
      ((render (mkConfig { maxRows := some 2 })
        (render (mkConfig { maxRows := some 2 }) initState
          ('a' :: '\n' :: 'b' :: [])).1
        ('a' :: '\n' :: 'b' :: '\n' :: 'c' :: [])).1, []) ∧
    overflowEvents (render (mkConfig { maxRows := some 2 })
      (render (mkConfig { maxRows := some 2 })
        (render (mkConfig { maxRows := some 2 }) initState
          ('a' :: '\n' :: 'b' :: [])).1
        ('a' :: '\n' :: 'b' :: '\n' :: 'c' :: [])).1 ['z']).2 = [] :=
  ⟨overflow_latch_once.2.2.2.1 ['z'],
    (overflow_latch_once.2.2.2.2.2.1 (mkConfig { maxRows := some 2 })
      (render (mkConfig { maxRows := some 2 })
        (render (mkConfig { maxRows := some 2 }) initState
          ('a' :: '\n' :: 'b' :: [])).1
        ('a' :: '\n' :: 'b' :: '\n' :: 'c' :: [])).1 ['z'] (by decide)).1⟩

end Markdansi

namespace Markdansi

theorem finish_some_eq (cfg : Config) (st : EngineState) (f : Str) :
    finish cfg st (some f) =
      (if cfg.hideCursor ∧ (hideCursorStep cfg st.cursorHidden).2 then
        ({ st with
            cursorHidden := false
            cursorRow :=
              sumRows (measureLines cfg (toRawLines (toRenderedText cfg f))) none
            previousLines := toRawLines (toRenderedText cfg f)
            previousLineHeights :=
              measureLines cfg (toRawLines (toRenderedText cfg f))
            previousRenderedRaw := toRenderedText cfg f },
          [.write (finishFrame cfg st f), .write SHOW_CURSOR])
      else
        ({ st with
            cursorHidden := (hideCursorStep cfg st.cursorHidden).2
            cursorRow :=
              sumRows (measureLines cfg (toRawLines (toRenderedText cfg f))) none
            previousLines := toRawLines (toRenderedText cfg f)
            previousLineHeights :=
              measureLines cfg (toRawLines (toRenderedText cfg f))
            previousRenderedRaw := toRenderedText cfg f },
          [.write (finishFrame cfg st f)])) := rfl

theorem finish_overflow_invariant (cfg : Config) (st : EngineState) (f : Str)
    (b : Bool) :
    finish cfg { st with overflowed := b } (some f) =
      ({ (finish cfg st (some f)).1 with overflowed := b },
        (finish cfg st (some f)).2) := by
  rw [finish_some_eq, finish_some_eq]
  by_cases hc : cfg.hideCursor ∧ (hideCursorStep cfg st.cursorHidden).2 = true
  · rw [if_pos hc, if_pos hc]
    rfl
  · rw [if_neg hc, if_neg hc]
    rfl

theorem foldl_rowsAppend (rows : List Str) (a : Str) :
    List.foldl (fun acc r => acc ++ '\r' :: (r ++ ['\r', '\n'])) a rows =
      a ++ rowsSegment rows := by
  induction rows generalizing a with
  | nil => simp [rowsSegment]
  | cons r rest ih =>
    show List.foldl (fun acc r => acc ++ '\r' :: (r ++ ['\r', '\n']))
      (a ++ '\r' :: (r ++ ['\r', '\n'])) rest = _
    rw [ih]
    have hcons : rowsSegment (r :: rest) =
        ('\r' :: (r ++ ['\r', '\n'])) ++ rowsSegment rest := by
      show List.foldl (fun acc r => acc ++ '\r' :: (r ++ ['\r', '\n']))
        ([] ++ '\r' :: (r ++ ['\r', '\n'])) rest = _
      rw [ih]
      simp
    rw [hcons, List.append_assoc]

theorem block_infix_rowsSegment {r : Str} {rows : List Str} (h : r ∈ rows) :
    ('\r' :: (r ++ ['\r', '\n'])) <:+: rowsSegment rows := by
  induction rows with
  | nil => cases h
  | cons a rest ih =>
    have hcons : rowsSegment (a :: rest) =
        ('\r' :: (a ++ ['\r', '\n'])) ++ rowsSegment rest := by
      show List.foldl (fun acc r => acc ++ '\r' :: (r ++ ['\r', '\n']))
        ([] ++ '\r' :: (a ++ ['\r', '\n'])) rest = _
      rw [foldl_rowsAppend]
      simp
    rcases List.mem_cons.mp h with heq | hmem
    · subst heq
      rw [hcons]
      exact (List.prefix_append _ _).isInfix
    · rw [hcons]
      exact (ih hmem).trans (List.suffix_append _ _).isInfix

/-- C10: finish performs a full repaint regardless of the overflow latch:
its output is identical to the output from the same state with the latch
cleared, the first write is the full-repaint frame, that frame clears to
end of screen, moves the cursor up by `cursorRow` when it is positive,
and contains every row of the final frame; the latch itself survives the
call.  In particular an engine halted by non-tail overflow still gets a
final full repaint from `finish`. -/
theorem finish_ignores_overflow_latch (cfg : Config) (st : EngineState)
    (f : Str) (h : st.overflowed = true) :
    (finish cfg st (some f)).2 =
      (finish cfg { st with overflowed := false } (some f)).2 ∧
    (finish cfg st (some f)).2.head? = some (.write (finishFrame cfg st f)) ∧
    CLEAR_TO_END <:+: finishFrame cfg st f ∧
    (0 < st.cursorRow → cursorUp st.cursorRow <:+: finishFrame cfg st f) ∧
    (∀ r ∈ toRawLines (toRenderedText cfg f),
      ('\r' :: (r ++ ['\r', '\n'])) <:+: finishFrame cfg st f) ∧
    ((finish cfg st (some f)).1).overflowed = true := by
  refine ⟨?_, ?_, ?_, ?_, ?_, ?_⟩
  · obtain ⟨pl, ph, cr, ch, ov, nf, pr⟩ := st
    have h' : ov = true := h
    subst h'
    have hinv := finish_overflow_invariant cfg ⟨pl, ph, cr, ch, false, nf, pr⟩ f true
    have h2 := congrArg Prod.snd hinv
    exact h2
  · rw [finish_some_eq]
    split
    · rfl
    · rfl
  · refine ⟨(hideCursorStep cfg st.cursorHidden).1
      ++ (if cfg.synchronizedOutput then BSU else [])
      ++ (if st.cursorRow > 0 then cursorUp st.cursorRow ++ ['\r'] else ['\r']),
      rowsSegment (toRawLines (toRenderedText cfg f))
      ++ (if cfg.synchronizedOutput then ESU else []), ?_⟩
    simp [finishFrame, List.append_assoc]
  · intro hpos
    refine ⟨(hideCursorStep cfg st.cursorHidden).1
      ++ (if cfg.synchronizedOutput then BSU else []),
      ['\r'] ++ CLEAR_TO_END
      ++ rowsSegment (toRawLines (toRenderedText cfg f))
      ++ (if cfg.synchronizedOutput then ESU else []), ?_⟩
    rw [finishFrame, if_pos hpos]
    simp [List.append_assoc]
  · intro r hr
    have hseg : rowsSegment (toRawLines (toRenderedText cfg f)) <:+:
        finishFrame cfg st f := by
      refine ⟨(hideCursorStep cfg st.cursorHidden).1
        ++ (if cfg.synchronizedOutput then BSU else [])
        ++ (if st.cursorRow > 0 then cursorUp st.cursorRow ++ ['\r'] else ['\r'])
        ++ CLEAR_TO_END,
        (if cfg.synchronizedOutput then ESU else []), ?_⟩
      simp [finishFrame, List.append_assoc]
    exact (block_infix_rowsSegment hr).trans hseg
  · rw [finish_preserves_overflowed]
    exact h

theorem finish_ignores_overflow_latch_witness :
    (finish (mkConfig { maxRows := some 2 })
      (render (mkConfig { maxRows := some 2 })
        (render (mkConfig { maxRows := some 2 }) initState
          ('a' :: '\n' :: 'b' :: [])).1
        ('a' :: '\n' :: 'b' :: '\n' :: 'c' :: [])).1
      (some ('a' :: '\n' :: 'b' :: '\n' :: 'c' :: []))).2.head? =
      some (.write (finishFrame (mkConfig { maxRows := some 2 })
        (render (mkConfig { maxRows := some 2 })
          (render (mkConfig { maxRows := some 2 }) initState
            ('a' :: '\n' :: 'b' :: [])).1
          ('a' :: '\n' :: 'b' :: '\n' :: 'c' :: [])).1
        ('a' :: '\n' :: 'b' :: '\n' :: 'c' :: []))) ∧
    ((finish (mkConfig { maxRows := some 2 })
      (render (mkConfig { maxRows := some 2 })
        (render (mkConfig { maxRows := some 2 }) initState
          ('a' :: '\n' :: 'b' :: [])).1
        ('a' :: '\n' :: 'b' :: '\n' :: 'c' :: [])).1
      (some ('a' :: '\n' :: 'b' :: '\n' :: 'c' :: []))).1).overflowed = true :=
  ⟨(finish_ignores_overflow_latch (mkConfig { maxRows := some 2 })
      (render (mkConfig { maxRows := some 2 })
        (render (mkConfig { maxRows := some 2 }) initState
          ('a' :: '\n' :: 'b' :: [])).1
        ('a' :: '\n' :: 'b' :: '\n' :: 'c' :: [])).1
      ('a' :: '\n' :: 'b' :: '\n' :: 'c' :: []) (by decide)).2.1,
    (finish_ignores_overflow_latch (mkConfig { maxRows := some 2 })
      (render (mkConfig { maxRows := some 2 })
        (render (mkConfig { maxRows := some 2 }) initState
          ('a' :: '\n' :: 'b' :: [])).1
        ('a' :: '\n' :: 'b' :: '\n' :: 'c' :: [])).1
      ('a' :: '\n' :: 'b' :: '\n' :: 'c' :: []) (by decide)).2.2.2.2.2⟩

end Markdansi

namespace Markdansi

theorem applySgr_concat (a0 : Str) (ts : List Str) (t : Str) :
    applySgr a0 (ts ++ [t]) = updateSgrState (applySgr a0 ts) t := by
  simp [applySgr, List.foldl_append]

theorem splitTokens_row_styles (cfg : Config) (a0 : Str) (A : List Str) :
    ∀ (ts : List Tok) (current : Str) (cw : Nat) (act : Str)
      (rows : List Str) (done : List Str),
      done ++ ansiToks ts = A →
      act = applySgr a0 done →
      (∃ d1, d1 <+: A ∧ applySgr a0 d1 <+: current) →
      (∀ r ∈ rows, ∃ d, d <+: A ∧ applySgr a0 d <+: r) →
      ∀ r ∈ (splitTokens cfg ts current cw act rows).1,
        ∃ d, d <+: A ∧ applySgr a0 d <+: r := by
  intro ts
  induction ts with
  | nil =>
    intro current cw act rows done hdone hact hcur hrows r hr
    simp only [splitTokens] at hr
    rcases List.mem_append.mp hr with h | h
    · exact hrows r h
    · have heq : r = current := by simpa using h
      subst heq
      exact hcur
  | cons t ts ih =>
    cases t with
    | ansi s =>
      intro current cw act rows done hdone hact hcur hrows
      simp only [splitTokens]
      refine ih (current ++ s) cw (updateSgrState act s) rows (done ++ [s])
        ?_ ?_ ?_ hrows
      · simpa [List.append_assoc] using hdone
      · rw [applySgr_concat, ← hact]
      · obtain ⟨d1, hd1, hp⟩ := hcur
        exact ⟨d1, hd1, hp.trans (List.prefix_append current s)⟩
    | chr c =>
      intro current cw act rows done hdone hact hcur hrows
      simp only [splitTokens]
      split
      · refine ih (act ++ [c]) (cfg.charWidth c) act (rows ++ [current]) done
          hdone hact ?_ ?_
        · refine ⟨done, ⟨ansiToks ts, hdone⟩, ?_⟩
          rw [← hact]
          exact List.prefix_append act [c]
        · intro r hr
          rcases List.mem_append.mp hr with h | h
          · exact hrows r h
          · have heq : r = current := by simpa using h
            subst heq
            exact hcur
      · refine ih (current ++ [c]) (cw + cfg.charWidth c) act rows done
          hdone hact ?_ hrows
        obtain ⟨d1, hd1, hp⟩ := hcur
        exact ⟨d1, hd1, hp.trans (List.prefix_append current [c])⟩

theorem splitLineToRows_row_styles (cfg : Config) (line a0 : Str)
    (hw : 0 < cfg.width) :
    ∀ r ∈ (splitLineToRows cfg line a0).1,
      ∃ ts, ts <+: ansiToks (tokenize line) ∧ applySgr a0 ts <+: r := by
  unfold splitLineToRows
  rw [if_neg (by omega)]
  exact splitTokens_row_styles cfg a0 (ansiToks (tokenize line))
    (tokenize line) a0 0 a0 [] [] rfl rfl
    ⟨[], List.nil_prefix, List.prefix_refl _⟩
    (fun r hr => absurd hr (List.not_mem_nil r))

/-- C4 is refuted as stated: an SGR sequence whose parameter list contains
the reset code together with other codes does not clear the active style
entirely; the active style becomes the sequence itself.  Concretely,
feeding `ESC[0;32m` to `updateSgrState` with active style `ESC[31m`
yields `ESC[0;32m`, not the empty style. -/
theorem updateSgr_reset_with_params_not_cleared :
    ((((escChar :: '[' :: '0' :: ';' :: '3' :: '2' :: 'm' :: []).drop 2).dropLast).splitOn
      ';').contains ['0'] = true ∧
    updateSgrState (escChar :: '[' :: '3' :: '1' :: 'm' :: [])
        (escChar :: '[' :: '0' :: ';' :: '3' :: '2' :: 'm' :: []) =
      (escChar :: '[' :: '0' :: ';' :: '3' :: '2' :: 'm' :: []) ∧
    (escChar :: '[' :: '0' :: ';' :: '3' :: '2' :: 'm' :: []) ≠ ([] : Str) := by
  refine ⟨by decide, by decide, by decide⟩

/-- C4 (amended): when a style-setting SGR sequence is processed, the
active style is cleared entirely when the parameter list is empty or
consists solely of reset codes; when the parameters contain the reset
code together with other codes, the active style is replaced by the
sequence itself; otherwise the sequence is appended.  Every physical row
produced by the row splitter (in particular every row created by
wrapping) begins by re-emitting an active style obtained by folding this
tracker over a prefix of the line's escape tokens from the initial
style. -/
theorem sgr_tracking_and_restyle :
    (∀ current sgrSeq : Str,
      [escChar, '['].isPrefixOf sgrSeq = true →
      sgrSeq.getLast? = some 'm' →
      (((sgrSeq.drop 2).dropLast).isEmpty = true →
        updateSgrState current sgrSeq = []) ∧
      ((((sgrSeq.drop 2).dropLast).splitOn ';').contains ['0'] = true →
        (((sgrSeq.drop 2).dropLast).splitOn ';').any
          (fun code => code != ['0']) = false →
        updateSgrState current sgrSeq = []) ∧
      ((((sgrSeq.drop 2).dropLast).splitOn ';').contains ['0'] = true →
        (((sgrSeq.drop 2).dropLast).splitOn ';').any
          (fun code => code != ['0']) = true →
        updateSgrState current sgrSeq = sgrSeq) ∧
      (((sgrSeq.drop 2).dropLast).isEmpty = false →
        (((sgrSeq.drop 2).dropLast).splitOn ';').contains ['0'] = false →
        updateSgrState current sgrSeq = current ++ sgrSeq)) ∧
    (∀ (cfg : Config) (line a0 : Str), 0 < cfg.width →
      ∀ r ∈ (splitLineToRows cfg line a0).1,
        ∃ ts, ts <+: ansiToks (tokenize line) ∧ applySgr a0 ts <+: r) := by
  constructor
  · intro current sgrSeq hpre hlast
    refine ⟨?_, ?_, ?_, ?_⟩
    · intro h1
      unfold updateSgrState
      rw [if_pos ⟨hpre, hlast⟩]
      show (if ((sgrSeq.drop 2).dropLast).isEmpty = true then ([] : Str)
        else if (((sgrSeq.drop 2).dropLast).splitOn ';').contains ['0'] = true
          then (if (((sgrSeq.drop 2).dropLast).splitOn ';').any
              (fun code => code != ['0']) = true then sgrSeq else [])
          else current ++ sgrSeq) = []
      rw [if_pos h1]
    · intro h2 h3
      unfold updateSgrState
      rw [if_pos ⟨hpre, hlast⟩]
      show (if ((sgrSeq.drop 2).dropLast).isEmpty = true then ([] : Str)
        else if (((sgrSeq.drop 2).dropLast).splitOn ';').contains ['0'] = true
          then (if (((sgrSeq.drop 2).dropLast).splitOn ';').any
              (fun code => code != ['0']) = true then sgrSeq else [])
          else current ++ sgrSeq) = []
      by_cases h1 : ((sgrSeq.drop 2).dropLast).isEmpty = true
      · rw [if_pos h1]
      · rw [if_neg h1, if_pos h2, if_neg (by rw [h3]; simp)]
    · intro h2 h3
      unfold updateSgrState
      rw [if_pos ⟨hpre, hlast⟩]
      show (if ((sgrSeq.drop 2).dropLast).isEmpty = true then ([] : Str)
        else if (((sgrSeq.drop 2).dropLast).splitOn ';').contains ['0'] = true
          then (if (((sgrSeq.drop 2).dropLast).splitOn ';').any
              (fun code => code != ['0']) = true then sgrSeq else [])
          else current ++ sgrSeq) = sgrSeq
      have h1 : ((sgrSeq.drop 2).dropLast).isEmpty = false := by
        by_contra hcon
        have h1' : ((sgrSeq.drop 2).dropLast).isEmpty = true := by
          cases hE : ((sgrSeq.drop 2).dropLast).isEmpty
          · exact absurd hE hcon
          · rfl
        have hb : (sgrSeq.drop 2).dropLast = [] := by
          cases hBody : (sgrSeq.drop 2).dropLast
          · rfl
          · rw [hBody] at h1'
            simp at h1'
        rw [hb] at h2
        exact absurd h2 (by decide)
      rw [if_neg (by rw [h1]; simp), if_pos h2, if_pos h3]
    · intro h1 h2
      unfold updateSgrState
      rw [if_pos ⟨hpre, hlast⟩]
      show (if ((sgrSeq.drop 2).dropLast).isEmpty = true then ([] : Str)
        else if (((sgrSeq.drop 2).dropLast).splitOn ';').contains ['0'] = true
          then (if (((sgrSeq.drop 2).dropLast).splitOn ';').any
              (fun code => code != ['0']) = true then sgrSeq else [])
          else current ++ sgrSeq) = current ++ sgrSeq
      rw [if_neg (by rw [h1]; simp), if_neg (by rw [h2]; simp)]
  · intro cfg line a0 hw
    exact splitLineToRows_row_styles cfg line a0 hw

theorem sgr_tracking_and_restyle_witness :
    updateSgrState (escChar :: '[' :: '3' :: '1' :: 'm' :: [])
        (escChar :: '[' :: '0' :: ';' :: '3' :: '2' :: 'm' :: []) =
      (escChar :: '[' :: '0' :: ';' :: '3' :: '2' :: 'm' :: []) ∧
    (∃ ts, ts <+: ansiToks (tokenize
        (escChar :: '[' :: '3' :: '1' :: 'm' :: 'a' :: 'b' :: 'c' :: [])) ∧
      applySgr [] ts <+:
        (splitLineToRows (mkConfig { width := some 2 })
          (escChar :: '[' :: '3' :: '1' :: 'm' :: 'a' :: 'b' :: 'c' :: [])
          []).1.getLastD []) := by
  constructor
  · exact ((sgr_tracking_and_restyle.1
      (escChar :: '[' :: '3' :: '1' :: 'm' :: [])
      (escChar :: '[' :: '0' :: ';' :: '3' :: '2' :: 'm' :: [])
      (by decide) (by decide)).2.2.1 (by decide) (by decide))
  · exact sgr_tracking_and_restyle.2 (mkConfig { width := some 2 })
      (escChar :: '[' :: '3' :: '1' :: 'm' :: 'a' :: 'b' :: 'c' :: [])
      [] (by decide) _ (by decide)

end Markdansi
